import Mathlib

/-!
# CityHash (Go port): a shallow embedding and its verification

The Go source `cityhash.go` is embedded as follows.

* `uint32` / `uint64` values are natural numbers; every expression that can
  overflow in Go is reduced `% 2 ^ 32` / `% 2 ^ 64` (a sum of several terms
  once, at its end, which gives the same value as reducing after each `+`).
* `int` values (lengths, offsets, loop counters) are integers, so that a
  negative offset is representable and is rejected by the slice operation.
* A byte slice is a `List Byte`.  Re-slicing and indexing panic in Go when
  out of range; here they return `none`, and every function that reads the
  input is in `Option`, with `none` meaning "no result".
* The two `for` loops carry a step budget.  The entry points supply a budget
  that is shown to be sufficient.
-/

namespace CityHash

/-- A byte of the input. -/
abbrev Byte := Fin 256

/-! ## Conversions and slicing -/

/-- Go conversion `uint32(x)` of an `int`. -/
def toUint32 (x : Int) : Nat := (x % 2 ^ 32).toNat

/-- Go conversion `uint64(x)` (and `uint(x)`) of an `int`. -/
def toUint64 (x : Int) : Nat := (x % 2 ^ 64).toNat

/-- Go conversion `int64(x)` of a wider integer result: two's complement
wrap-around into `[-2^63, 2^63)`. -/
def wrapInt64 (x : Int) : Int := (x + 2 ^ 63) % 2 ^ 64 - 2 ^ 63

/-- Go conversion `int8(v)` of a byte. -/
def toInt8 (v : Byte) : Int := if v.val < 128 then (v.val : Int) else (v.val : Int) - 256

/-- Go re-slice `p[index:]`: panics unless `0 ≤ index ≤ len(p)`. -/
def sliceFrom (p : List Byte) (index : Int) : Option (List Byte) :=
  if 0 ≤ index ∧ index ≤ (p.length : Int) then some (p.drop index.toNat) else none

/-- Go index expression `p[index]`: panics unless `0 ≤ index < len(p)`. -/
def byteAt (p : List Byte) (index : Int) : Option Byte :=
  if 0 ≤ index then p[index.toNat]? else none

/-- Go standard library `binary.LittleEndian.Uint32(b)`: panics unless
`len(b) ≥ 4`, otherwise `b[0] | b[1]<<8 | b[2]<<16 | b[3]<<24`. -/
def leUint32 : List Byte → Option Nat
  | b0 :: b1 :: b2 :: b3 :: _ =>
      some (b0.val ||| (b1.val <<< 8) ||| (b2.val <<< 16) ||| (b3.val <<< 24))
  | _ => none

/-- Go standard library `binary.LittleEndian.Uint64(b)`: panics unless
`len(b) ≥ 8`, otherwise the bitwise or of `b[j] << 8j` for `j = 0..7`. -/
def leUint64 : List Byte → Option Nat
  | b0 :: b1 :: b2 :: b3 :: b4 :: b5 :: b6 :: b7 :: _ =>
      some (b0.val ||| (b1.val <<< 8) ||| (b2.val <<< 16) ||| (b3.val <<< 24) |||
        (b4.val <<< 32) ||| (b5.val <<< 40) ||| (b6.val <<< 48) ||| (b7.val <<< 56))
  | _ => none

/-- Source `fetch64`: `binary.LittleEndian.Uint64(p[index:])`. -/
def fetch64 (p : List Byte) (index : Int) : Option Nat :=
  (sliceFrom p index).bind leUint64

/-- Source `fetch32`: `binary.LittleEndian.Uint32(p[index:])`. -/
def fetch32 (p : List Byte) (index : Int) : Option Nat :=
  (sliceFrom p index).bind leUint32

/-! ## Constants -/

def k0 : Nat := 0xc3a5c85c97cb3127
def k1 : Nat := 0xb492b66fbe98f273
def k2 : Nat := 0x9ae16a3b2f90404f
def k3 : Nat := 0xc949d7c7509e6557
def c1 : Nat := 0xcc9e2d51
def c2 : Nat := 0x1b873593

/-! ## Primitive mixers -/

/-- Source `bswap32`. -/
def bswap32 (x : Nat) : Nat :=
  (((x <<< 24) % 2 ^ 32) &&& 0xff000000) |||
  (((x <<< 8) % 2 ^ 32) &&& 0x00ff0000) |||
  ((x >>> 8) &&& 0x0000ff00) |||
  ((x >>> 24) &&& 0x000000ff)

/-- Source `fmix`. -/
def fmix (h : Nat) : Nat :=
  let h := h ^^^ (h >>> 16)
  let h := (h * 0x85ebca6b) % 2 ^ 32
  let h := h ^^^ (h >>> 13)
  let h := (h * 0xc2b2ae35) % 2 ^ 32
  let h := h ^^^ (h >>> 16)
  h

/-- A 128-bit value: source `type Uint128 [2]uint64`. -/
structure Uint128 where
  lower : Nat
  higher : Nat
deriving DecidableEq, Repr

/-- Source `Uint128.Lower64`. -/
def Uint128.Lower64 (x : Uint128) : Nat := x.lower

/-- Source `Uint128.Higher64`. -/
def Uint128.Higher64 (x : Uint128) : Nat := x.higher

/-- Source `hash128to64`. -/
def hash128to64 (x : Uint128) : Nat :=
  let kMul : Nat := 0x9ddfea08eb382d69
  let a := ((x.Lower64 ^^^ x.Higher64) * kMul) % 2 ^ 64
  let a := a ^^^ (a >>> 47)
  let b := ((x.Higher64 ^^^ a) * kMul) % 2 ^ 64
  let b := b ^^^ (b >>> 47)
  let b := (b * kMul) % 2 ^ 64
  b

/-- Source `rotate64`; `shift` is a `uint32`, so `64 - shift` wraps modulo
`2^32`, and a left shift by 64 or more yields zero. -/
def rotate64 (val shift : Nat) : Nat :=
  if shift ≠ 0 then
    (val >>> shift) ||| ((val <<< ((64 + 2 ^ 32 - shift) % 2 ^ 32)) % 2 ^ 64)
  else val

/-- Source `rotateByAtLeast1`; `shift` is a `uint`, so `64 - shift` wraps
modulo `2^64`. -/
def rotateByAtLeast1 (val shift : Nat) : Nat :=
  (val >>> shift) ||| ((val <<< ((64 + 2 ^ 64 - shift) % 2 ^ 64)) % 2 ^ 64)

/-- Source `rotate32`; `shift` is a `uint32`, so `32 - shift` wraps modulo
`2^32`. -/
def rotate32 (val shift : Nat) : Nat :=
  if shift ≠ 0 then
    (val >>> shift) ||| ((val <<< ((32 + 2 ^ 32 - shift) % 2 ^ 32)) % 2 ^ 32)
  else val

/-- Source `mur`. -/
def mur (a h : Nat) : Nat :=
  let a := (a * c1) % 2 ^ 32
  let a := rotate32 a 17
  let a := (a * c2) % 2 ^ 32
  let h := h ^^^ a
  let h := rotate32 h 19
  let z := (h * 5 + 0xe6546b64) % 2 ^ 32
  z

/-- Source `shiftMix`. -/
def shiftMix (val : Nat) : Nat := val ^^^ (val >>> 47)

/-- Source `hashLen16`. -/
def hashLen16 (u v : Nat) : Nat := hash128to64 ⟨u, v⟩

/-! ## CityHash32 -/

/-- Source `hash32Len13to24`. -/
def hash32Len13to24 (s : List Byte) : Option Nat := do
  let length : Int := s.length
  let a ← fetch32 s ((length >>> (1 : Nat)) - 4)
  let b ← fetch32 s 4
  let c ← fetch32 s (length - 8)
  let d ← fetch32 s (length >>> (1 : Nat))
  let e ← fetch32 s 0
  let f ← fetch32 s (length - 4)
  let h := toUint32 length
  some (fmix (mur f (mur e (mur d (mur c (mur b (mur a h)))))))

/-- One pass of the `range` loop of source `hash32Len0to4`, on the pair
`(b, c)`: `b = uint32(int64(b)*int64(c1) + int64(int8(v)))`, `c ^= b`. -/
def fold0to4 (bc : Nat × Nat) (v : Byte) : Nat × Nat :=
  let b := toUint32 (wrapInt64 (wrapInt64 ((bc.1 : Int) * (c1 : Int)) + toInt8 v))
  let c := bc.2 ^^^ b
  (b, c)

/-- Source `hash32Len0to4`. -/
def hash32Len0to4 (s : List Byte) : Nat :=
  let bc := s.foldl fold0to4 (0, 9)
  fmix (mur bc.1 (mur (toUint32 s.length) bc.2))

/-- Source `hash32Len5to12`. -/
def hash32Len5to12 (s : List Byte) : Option Nat := do
  let length : Int := s.length
  let a := toUint32 length
  let b := (toUint32 length * 5) % 2 ^ 32
  let c := 9
  let d := b
  let a := (a + (← fetch32 s 0)) % 2 ^ 32
  let b := (b + (← fetch32 s (length - 4))) % 2 ^ 32
  let c := (c + (← fetch32 s (Int.land (length >>> (1 : Nat)) 4))) % 2 ^ 32
  some (fmix (mur c (mur b (mur a d))))

/-- Source `swap32`, on values. -/
def swap32 (a b : Nat) : Nat × Nat := (b, a)

/-- Source `permute3`, on values: `swap32(a, b); swap32(a, c)`. -/
def permute3 (a b c : Nat) : Nat × Nat × Nat :=
  let ab := swap32 a b
  let ac := swap32 ab.1 c
  (ac.1, ab.2, ac.2)

/-- The variables live across the `for` loop of `CityHash32`. -/
structure Loop32 where
  s : List Byte
  h : Nat
  g : Nat
  f : Nat
  iters : Int
deriving DecidableEq, Repr

/-- One pass through the body of the `for` loop of `CityHash32`, from the
five loads up to and including `iters--`. -/
def body32 (st : Loop32) : Option Loop32 := do
  let a0 := (rotate32 (((← fetch32 st.s 0) * c1) % 2 ^ 32) 17 * c2) % 2 ^ 32
  let a1 ← fetch32 st.s 4
  let a2 := (rotate32 (((← fetch32 st.s 8) * c1) % 2 ^ 32) 17 * c2) % 2 ^ 32
  let a3 := (rotate32 (((← fetch32 st.s 12) * c1) % 2 ^ 32) 17 * c2) % 2 ^ 32
  let a4 ← fetch32 st.s 16
  let h := st.h ^^^ a0
  let h := rotate32 h 18
  let h := (h * 5 + 0xe6546b64) % 2 ^ 32
  let f := (st.f + a1) % 2 ^ 32
  let f := rotate32 f 19
  let f := (f * c1) % 2 ^ 32
  let g := (st.g + a2) % 2 ^ 32
  let g := rotate32 g 18
  let g := (g * 5 + 0xe6546b64) % 2 ^ 32
  let h := h ^^^ ((a3 + a1) % 2 ^ 32)
  let h := rotate32 h 19
  let h := (h * 5 + 0xe6546b64) % 2 ^ 32
  let g := g ^^^ a4
  let g := (bswap32 g * 5) % 2 ^ 32
  let h := (h + (a4 * 5) % 2 ^ 32) % 2 ^ 32
  let h := bswap32 h
  let f := (f + a0) % 2 ^ 32
  let fhg := permute3 f h g
  let s ← sliceFrom st.s 20
  some ⟨s, fhg.2.1, fhg.2.2, fhg.1, st.iters - 1⟩

/-- The `for` loop of `CityHash32`: run the body, leave when `iters == 0`.
The first argument bounds the number of passes; `none` when it is used up. -/
def loop32 : Nat → Loop32 → Option Loop32
  | 0, _ => none
  | fuel + 1, st => do
      let st ← body32 st
      if st.iters = 0 then some st else loop32 fuel st

/-- Source `CityHash32`. -/
def CityHash32 (s : List Byte) : Option Nat :=
  let length : Int := s.length
  if length ≤ 4 then some (hash32Len0to4 s)
  else if length ≤ 12 then hash32Len5to12 s
  else if length ≤ 24 then hash32Len13to24 s
  else do
    let h := toUint32 length
    let g := (c1 * toUint32 length) % 2 ^ 32
    let f := g
    let a0 := (rotate32 (((← fetch32 s (length - 4)) * c1) % 2 ^ 32) 17 * c2) % 2 ^ 32
    let a1 := (rotate32 (((← fetch32 s (length - 8)) * c1) % 2 ^ 32) 17 * c2) % 2 ^ 32
    let a2 := (rotate32 (((← fetch32 s (length - 16)) * c1) % 2 ^ 32) 17 * c2) % 2 ^ 32
    let a3 := (rotate32 (((← fetch32 s (length - 12)) * c1) % 2 ^ 32) 17 * c2) % 2 ^ 32
    let a4 := (rotate32 (((← fetch32 s (length - 20)) * c1) % 2 ^ 32) 17 * c2) % 2 ^ 32
    let h := h ^^^ a0
    let h := rotate32 h 19
    let h := (h * 5 + 0xe6546b64) % 2 ^ 32
    let h := h ^^^ a2
    let h := rotate32 h 19
    let h := (h * 5 + 0xe6546b64) % 2 ^ 32
    let g := g ^^^ a1
    let g := rotate32 g 19
    let g := (g * 5 + 0xe6546b64) % 2 ^ 32
    let g := g ^^^ a3
    let g := rotate32 g 19
    let g := (g * 5 + 0xe6546b64) % 2 ^ 32
    let f := (f + a4) % 2 ^ 32
    let f := rotate32 f 19
    let f := (f * 5 + 0xe6546b64) % 2 ^ 32
    let iters : Int := Int.tdiv (length - 1) 20
    let st ← loop32 s.length ⟨s, h, g, f, iters⟩
    let g := (rotate32 st.g 11 * c1) % 2 ^ 32
    let g := (rotate32 g 17 * c1) % 2 ^ 32
    let f := (rotate32 st.f 11 * c1) % 2 ^ 32
    let f := (rotate32 f 17 * c1) % 2 ^ 32
    let h := rotate32 ((st.h + g) % 2 ^ 32) 19
    let h := (h * 5 + 0xe6546b64) % 2 ^ 32
    let h := (rotate32 h 17 * c1) % 2 ^ 32
    let h := rotate32 ((h + f) % 2 ^ 32) 19
    let h := (h * 5 + 0xe6546b64) % 2 ^ 32
    let h := (rotate32 h 17 * c1) % 2 ^ 32
    some h

/-! ## CityHash64 -/

/-- Go `a - b` on `uint64`. -/
def sub64 (a b : Nat) : Nat := toUint64 ((a : Int) - (b : Int))

/-- Source `hashLen0to16`. -/
def hashLen0to16 (s : List Byte) (offset : Int) : Option Nat :=
  let length : Int := (s.length : Int) - offset
  if length > 8 then do
    let a ← fetch64 s offset
    let b ← fetch64 s (offset + length - 8)
    some (hashLen16 a (rotateByAtLeast1 ((b + toUint64 length) % 2 ^ 64) (toUint64 length)) ^^^ b)
  else if length ≥ 4 then do
    let a ← fetch32 s offset
    let b ← fetch32 s (offset + length - 4)
    some (hashLen16 ((toUint64 length + (a <<< 3) % 2 ^ 64) % 2 ^ 64) b)
  else if length > 0 then do
    let a ← byteAt s 0
    let b ← byteAt s (length >>> (1 : Nat))
    let c ← byteAt s (length - 1)
    let y := (a.val + (b.val <<< 8) % 2 ^ 32) % 2 ^ 32
    let z := (toUint32 length + (c.val <<< 2) % 2 ^ 32) % 2 ^ 32
    some ((shiftMix (((y * k2) % 2 ^ 64) ^^^ ((z * k3) % 2 ^ 64)) * k2) % 2 ^ 64)
  else some k2

/-- Source `hashLen17to32`. -/
def hashLen17to32 (s : List Byte) : Option Nat := do
  let length : Int := s.length
  let a := ((← fetch64 s 0) * k1) % 2 ^ 64
  let b ← fetch64 s 8
  let c := ((← fetch64 s (length - 8)) * k2) % 2 ^ 64
  let d := ((← fetch64 s (length - 16)) * k0) % 2 ^ 64
  some (hashLen16 ((rotate64 (sub64 a b) 43 + rotate64 c 30 + d) % 2 ^ 64)
    ((sub64 ((a + rotate64 (b ^^^ k3) 20) % 2 ^ 64) c + toUint64 length) % 2 ^ 64))

/-- Source `weakHashLen32WithSeeds`. -/
def weakHashLen32WithSeeds (w x y z a b : Nat) : Uint128 :=
  let a := (a + w) % 2 ^ 64
  let b := rotate64 ((b + a + z) % 2 ^ 64) 21
  let c := a
  let a := (a + x) % 2 ^ 64
  let a := (a + y) % 2 ^ 64
  let b := (b + rotate64 a 44) % 2 ^ 64
  ⟨(a + z) % 2 ^ 64, (b + c) % 2 ^ 64⟩

/-- Source `weakHashLen32WithSeeds_3`. -/
def weakHashLen32WithSeeds_3 (s : List Byte) (offset : Int) (a b : Nat) : Option Uint128 := do
  some (weakHashLen32WithSeeds (← fetch64 s offset) (← fetch64 s (offset + 8))
    (← fetch64 s (offset + 16)) (← fetch64 s (offset + 24)) a b)

/-- Source `hashLen33to64`. -/
def hashLen33to64 (s : List Byte) : Option Nat := do
  let length : Int := s.length
  let z ← fetch64 s 24
  let a := ((← fetch64 s 0) +
    ((toUint64 length + (← fetch64 s (length - 16))) % 2 ^ 64 * k0) % 2 ^ 64) % 2 ^ 64
  let b := rotate64 ((a + z) % 2 ^ 64) 52
  let c := rotate64 a 37
  let a := (a + (← fetch64 s 8)) % 2 ^ 64
  let c := (c + rotate64 a 7) % 2 ^ 64
  let a := (a + (← fetch64 s 16)) % 2 ^ 64
  let vf := (a + z) % 2 ^ 64
  let vs := (b + rotate64 a 31 + c) % 2 ^ 64
  let a := ((← fetch64 s 16) + (← fetch64 s (length - 32))) % 2 ^ 64
  let z ← fetch64 s (length - 8)
  let b := rotate64 ((a + z) % 2 ^ 64) 52
  let c := rotate64 a 37
  let a := (a + (← fetch64 s (length - 24))) % 2 ^ 64
  let c := (c + rotate64 a 7) % 2 ^ 64
  let a := (a + (← fetch64 s (length - 16))) % 2 ^ 64
  let wf := (a + z) % 2 ^ 64
  let ws := (b + rotate64 a 31 + c) % 2 ^ 64
  let r := shiftMix ((((vf + ws) % 2 ^ 64 * k2) % 2 ^ 64 + ((wf + vs) % 2 ^ 64 * k0) % 2 ^ 64) % 2 ^ 64)
  some ((shiftMix ((r * k0 + vs) % 2 ^ 64) * k2) % 2 ^ 64)

/-- Source `swap64`, on values. -/
def swap64 (a b : Nat) : Nat × Nat := (b, a)

/-- The variables live across the `for` loop of `CityHash64`. -/
structure Loop64 where
  s : List Byte
  x : Nat
  y : Nat
  z : Nat
  v : Uint128
  w : Uint128
  length : Int
deriving DecidableEq, Repr

/-- One pass through the body of the `for` loop of `CityHash64`, up to and
including `length -= 64`. -/
def body64 (st : Loop64) : Option Loop64 := do
  let x := (rotate64 ((st.x + st.y + st.v.Lower64 + (← fetch64 st.s 8)) % 2 ^ 64) 37 * k1) % 2 ^ 64
  let y := (rotate64 ((st.y + st.v.Higher64 + (← fetch64 st.s 48)) % 2 ^ 64) 42 * k1) % 2 ^ 64
  let x := x ^^^ st.w.Higher64
  let y := (y + (st.v.Lower64 + (← fetch64 st.s 40)) % 2 ^ 64) % 2 ^ 64
  let z := (rotate64 ((st.z + st.w.Lower64) % 2 ^ 64) 33 * k1) % 2 ^ 64
  let v ← weakHashLen32WithSeeds_3 st.s 0 ((st.v.Higher64 * k1) % 2 ^ 64)
    ((x + st.w.Lower64) % 2 ^ 64)
  let w ← weakHashLen32WithSeeds_3 st.s 32 ((z + st.w.Higher64) % 2 ^ 64)
    ((y + (← fetch64 st.s 16)) % 2 ^ 64)
  let zx := swap64 z x
  let s ← sliceFrom st.s 64
  some ⟨s, zx.2, y, zx.1, v, w, st.length - 64⟩

/-- The `for` loop of `CityHash64`: run the body, leave when `length == 0`.
The first argument bounds the number of passes; `none` when it is used up. -/
def loop64 : Nat → Loop64 → Option Loop64
  | 0, _ => none
  | fuel + 1, st => do
      let st ← body64 st
      if st.length = 0 then some st else loop64 fuel st

/-- Source `CityHash64`. -/
def CityHash64 (s : List Byte) : Option Nat :=
  let length : Int := s.length
  if length ≤ 32 then
    if length ≤ 16 then hashLen0to16 s 0
    else hashLen17to32 s
  else if length ≤ 64 then hashLen33to64 s
  else do
    let x ← fetch64 s (length - 40)
    let y := ((← fetch64 s (length - 16)) + (← fetch64 s (length - 56))) % 2 ^ 64
    let z := hashLen16 (((← fetch64 s (length - 48)) + toUint64 length) % 2 ^ 64)
      (← fetch64 s (length - 24))
    let v ← weakHashLen32WithSeeds_3 s (length - 64) (toUint64 length) z
    let w ← weakHashLen32WithSeeds_3 s (length - 32) ((y + k1) % 2 ^ 64) x
    let x := (x * k1 + (← fetch64 s 0)) % 2 ^ 64
    let length : Int := Int.land (length - 1) (Int.not 63)
    let st ← loop64 s.length ⟨s, x, y, z, v, w, length⟩
    some (hashLen16
      ((hashLen16 st.v.Lower64 st.w.Lower64 + (shiftMix st.y * k1) % 2 ^ 64 + st.z) % 2 ^ 64)
      ((hashLen16 st.v.Higher64 st.w.Higher64 + st.x) % 2 ^ 64))

/-- Source `CityHash64WithSeeds`. -/
def CityHash64WithSeeds (s : List Byte) (seed0 seed1 : Nat) : Option Nat := do
  some (hashLen16 (sub64 (← CityHash64 s) seed0) seed1)

/-- Source `CityHash64WithSeed`. -/
def CityHash64WithSeed (s : List Byte) (seed : Nat) : Option Nat :=
  CityHash64WithSeeds s k2 seed

/-! ## The 128-bit value as bytes -/

/-- Go conversion `byte(v)` of an unsigned integer: its low eight bits. -/
def toByte (v : Nat) : Byte := ⟨v % 256, Nat.mod_lt _ (by decide)⟩

/-- Go standard library `binary.LittleEndian.PutUint64(b, v)`: panics unless
`len(b) ≥ 8`, otherwise sets `b[j] = byte(v >> 8j)` for `j = 0..7`.  The
buffer after the call is returned. -/
def putUint64 (b : List Byte) (v : Nat) : Option (List Byte) :=
  if 8 ≤ b.length then
    some ([toByte v, toByte (v >>> 8), toByte (v >>> 16), toByte (v >>> 24),
      toByte (v >>> 32), toByte (v >>> 40), toByte (v >>> 48), toByte (v >>> 56)] ++ b.drop 8)
  else none

/-- Source `Uint128.Bytes`: a fresh 16-byte buffer, the lower lane written at
its start, the higher lane written through the alias `b[8:]`. -/
def Uint128.Bytes (x : Uint128) : Option (List Byte) := do
  let b : List Byte := List.replicate 16 0
  let b ← putUint64 b x.lower
  let hi ← putUint64 (← sliceFrom b 8) x.higher
  some (b.take 8 ++ hi)

/-! ## The tail words of the long-input path of CityHash32 -/

/-- The five tail words `a0 .. a4` of source `CityHash32` (the five `var`
lines after `f = g`), as a function of the input. -/
def tail32 (s : List Byte) : Option (Nat × Nat × Nat × Nat × Nat) := do
  let length : Int := s.length
  let a0 := (rotate32 (((← fetch32 s (length - 4)) * c1) % 2 ^ 32) 17 * c2) % 2 ^ 32
  let a1 := (rotate32 (((← fetch32 s (length - 8)) * c1) % 2 ^ 32) 17 * c2) % 2 ^ 32
  let a2 := (rotate32 (((← fetch32 s (length - 16)) * c1) % 2 ^ 32) 17 * c2) % 2 ^ 32
  let a3 := (rotate32 (((← fetch32 s (length - 12)) * c1) % 2 ^ 32) 17 * c2) % 2 ^ 32
  let a4 := (rotate32 (((← fetch32 s (length - 20)) * c1) % 2 ^ 32) 17 * c2) % 2 ^ 32
  some (a0, a1, a2, a3, a4)

/-- The long-input path of source `CityHash32` with its five tail words given:
the seeding of `h`, `g`, `f`, the folding of the tail words, the loop and the
final mixing. -/
def finish32 (s : List Byte) (a : Nat × Nat × Nat × Nat × Nat) : Option Nat := do
  let length : Int := s.length
  let h := toUint32 length
  let g := (c1 * toUint32 length) % 2 ^ 32
  let f := g
  let h := h ^^^ a.1
  let h := rotate32 h 19
  let h := (h * 5 + 0xe6546b64) % 2 ^ 32
  let h := h ^^^ a.2.2.1
  let h := rotate32 h 19
  let h := (h * 5 + 0xe6546b64) % 2 ^ 32
  let g := g ^^^ a.2.1
  let g := rotate32 g 19
  let g := (g * 5 + 0xe6546b64) % 2 ^ 32
  let g := g ^^^ a.2.2.2.1
  let g := rotate32 g 19
  let g := (g * 5 + 0xe6546b64) % 2 ^ 32
  let f := (f + a.2.2.2.2) % 2 ^ 32
  let f := rotate32 f 19
  let f := (f * 5 + 0xe6546b64) % 2 ^ 32
  let iters : Int := Int.tdiv (length - 1) 20
  let st ← loop32 s.length ⟨s, h, g, f, iters⟩
  let g := (rotate32 st.g 11 * c1) % 2 ^ 32
  let g := (rotate32 g 17 * c1) % 2 ^ 32
  let f := (rotate32 st.f 11 * c1) % 2 ^ 32
  let f := (rotate32 f 17 * c1) % 2 ^ 32
  let h := rotate32 ((st.h + g) % 2 ^ 32) 19
  let h := (h * 5 + 0xe6546b64) % 2 ^ 32
  let h := (rotate32 h 17 * c1) % 2 ^ 32
  let h := rotate32 ((h + f) % 2 ^ 32) 19
  let h := (h * 5 + 0xe6546b64) % 2 ^ 32
  let h := (rotate32 h 17 * c1) % 2 ^ 32
  some h

/-! ## Definitions used to state the properties -/

/-- The little-endian value of the four bytes of `p` starting at position `k`
(bytes past the end count as zero). -/
def leWord32 (p : List Byte) (k : Nat) : Nat :=
  (p.getD k 0).val + 2 ^ 8 * (p.getD (k + 1) 0).val +
    2 ^ 16 * (p.getD (k + 2) 0).val + 2 ^ 24 * (p.getD (k + 3) 0).val

/-- The little-endian value of the eight bytes of `p` starting at position `k`
(bytes past the end count as zero). -/
def leWord64 (p : List Byte) (k : Nat) : Nat :=
  ∑ j in Finset.range 8, 2 ^ (8 * j) * (p.getD (k + j) 0).val

/-- The body of the `for` loop of `CityHash32` run `i` times in a row, with no
exit test in between. -/
def iter32 : Nat → Loop32 → Option Loop32
  | 0, st => some st
  | i + 1, st => (body32 st).bind (iter32 i)

/-- The fold step of `hash32Len0to4` as the specification words it:
`b := (b*c1 + signext(byte)) mod 2^32`, `c := c xor b`, where a byte `≥ 0x80`
contributes `byte - 256`. -/
def specFold0to4 (bc : Nat × Nat) (v : Byte) : Nat × Nat :=
  let signext : Int := if 128 ≤ v.val then (v.val : Int) - 256 else (v.val : Int)
  let b := (((bc.1 : Int) * (c1 : Int) + signext) % 2 ^ 32).toNat
  (b, bc.2 ^^^ b)

/-- The fold step with the byte zero-extended instead of sign-extended. -/
def zeroExtFold0to4 (bc : Nat × Nat) (v : Byte) : Nat × Nat :=
  let b := (bc.1 * c1 + v.val) % 2 ^ 32
  (b, bc.2 ^^^ b)

/-- The digest of the `n ≤ 4` band when bytes are zero-extended. -/
def zeroExtHash32Len0to4 (s : List Byte) : Nat :=
  let bc := s.foldl zeroExtFold0to4 (0, 9)
  fmix (mur bc.1 (mur s.length bc.2))

/-- The body of the `for` loop of `CityHash64` run `i` times in a row, with no
exit test in between. -/
def iter64 : Nat → Loop64 → Option Loop64
  | 0, st => some st
  | i + 1, st => (body64 st).bind (iter64 i)

/-- Right rotation of the 64-bit word `v` by `n` bits, `0 ≤ n ≤ 64`: the low
`n` bits move to the top, the others move down by `n`. -/
def rotr64 (v n : Nat) : Nat := v / 2 ^ n + (v % 2 ^ n) * 2 ^ (64 - n)

/-- Right rotation of the 32-bit word `v` by `n` bits, `0 ≤ n ≤ 32`: the low
`n` bits move to the top, the others move down by `n`. -/
def rotr32 (v n : Nat) : Nat := v / 2 ^ n + (v % 2 ^ n) * 2 ^ (32 - n)

/-- Left rotation of the 32-bit word `v` by `n` bits, `0 ≤ n ≤ 32`: the top
`n` bits move to the bottom, the others move up by `n`. -/
def rotl32 (v n : Nat) : Nat := (v % 2 ^ (32 - n)) * 2 ^ n + v / 2 ^ (32 - n)

/-- A tail word as the specification words it: the load multiplied by `c1`,
rotated left by 17 bits, multiplied by `c2`. -/
def specTailWord (x : Nat) : Nat := (rotl32 ((x * c1) % 2 ^ 32) 17 * c2) % 2 ^ 32

/-- A tail word with the rotation to the right: the load multiplied by `c1`,
rotated right by 17 bits, multiplied by `c2`. -/
def tailWord (x : Nat) : Nat := (rotr32 ((x * c1) % 2 ^ 32) 17 * c2) % 2 ^ 32

/-- The specification's listing of `weakHashLen32WithSeeds`:
`a += w; b = rotate64(b+a+z, 21); c = a; a += x+y; b += rotate64(a, 44);
return {lower: a+z, higher: b+c}`. -/
def specWeakHashLen32WithSeeds (w x y z a b : Nat) : Uint128 :=
  let a := (a + w) % 2 ^ 64
  let b := rotate64 ((b + a + z) % 2 ^ 64) 21
  let c := a
  let a := (a + (x + y) % 2 ^ 64) % 2 ^ 64
  let b := (b + rotate64 a 44) % 2 ^ 64
  ⟨(a + z) % 2 ^ 64, (b + c) % 2 ^ 64⟩

/-- A left inverse of `fmix` on 32-bit words: the three xor-shifts and the two
multiplications undone in reverse order. -/
def fmixInv (h : Nat) : Nat :=
  let h := h ^^^ (h >>> 16)
  let h := (h * 0x7ed1b41d) % 2 ^ 32
  let h := h ^^^ (h >>> 13) ^^^ (h >>> 26)
  let h := (h * 0xa5cb9243) % 2 ^ 32
  let h := h ^^^ (h >>> 16)
  h

theorem or_shiftLeft_eq_add (y b k : Nat) (hy : y < 2 ^ k) :
    y ||| (b <<< k) = y + 2 ^ k * b := by
  rw [Nat.shiftLeft_eq, Nat.mul_comm b, Nat.lor_comm, Nat.add_comm]
  exact (Nat.mul_add_lt_is_or hy b).symm

theorem sliceFrom_eq (p : List Byte) (i : Int) (h0 : 0 ≤ i) (h : i ≤ (p.length : Int)) :
    sliceFrom p i = some (p.drop i.toNat) := by
  simp [sliceFrom, h0, h]

theorem drop_eq_cons (p : List Byte) (k : Nat) (h : k < p.length) :
    p.drop k = p.getD k 0 :: p.drop (k + 1) := by
  rw [List.drop_eq_getElem_cons h]
  simp [List.getD_eq_getElem?_getD, List.getElem?_eq_getElem h]

theorem leUint32_drop (p : List Byte) (k : Nat) (h : k + 4 ≤ p.length) :
    leUint32 (p.drop k) = some ((p.getD k 0).val + 2 ^ 8 * (p.getD (k + 1) 0).val +
      2 ^ 16 * (p.getD (k + 2) 0).val + 2 ^ 24 * (p.getD (k + 3) 0).val) := by
  rw [drop_eq_cons p k (by omega), drop_eq_cons p (k + 1) (by omega),
    drop_eq_cons p (k + 2) (by omega), drop_eq_cons p (k + 3) (by omega)]
  have h0 := (p.getD k 0).isLt
  have h1 := (p.getD (k + 1) 0).isLt
  have h2 := (p.getD (k + 2) 0).isLt
  have h3 := (p.getD (k + 3) 0).isLt
  simp only [leUint32]
  rw [or_shiftLeft_eq_add _ _ 8 (by omega), or_shiftLeft_eq_add _ _ 16 (by omega),
    or_shiftLeft_eq_add _ _ 24 (by omega)]

theorem leUint64_drop (p : List Byte) (k : Nat) (h : k + 8 ≤ p.length) :
    leUint64 (p.drop k) = some ((p.getD k 0).val + 2 ^ 8 * (p.getD (k + 1) 0).val +
      2 ^ 16 * (p.getD (k + 2) 0).val + 2 ^ 24 * (p.getD (k + 3) 0).val +
      2 ^ 32 * (p.getD (k + 4) 0).val + 2 ^ 40 * (p.getD (k + 5) 0).val +
      2 ^ 48 * (p.getD (k + 6) 0).val + 2 ^ 56 * (p.getD (k + 7) 0).val) := by
  rw [drop_eq_cons p k (by omega), drop_eq_cons p (k + 1) (by omega),
    drop_eq_cons p (k + 2) (by omega), drop_eq_cons p (k + 3) (by omega),
    drop_eq_cons p (k + 4) (by omega), drop_eq_cons p (k + 5) (by omega),
    drop_eq_cons p (k + 6) (by omega), drop_eq_cons p (k + 7) (by omega)]
  have h0 := (p.getD k 0).isLt
  have h1 := (p.getD (k + 1) 0).isLt
  have h2 := (p.getD (k + 2) 0).isLt
  have h3 := (p.getD (k + 3) 0).isLt
  have h4 := (p.getD (k + 4) 0).isLt
  have h5 := (p.getD (k + 5) 0).isLt
  have h6 := (p.getD (k + 6) 0).isLt
  have h7 := (p.getD (k + 7) 0).isLt
  simp only [leUint64]
  rw [or_shiftLeft_eq_add _ _ 8 (by omega), or_shiftLeft_eq_add _ _ 16 (by omega),
    or_shiftLeft_eq_add _ _ 24 (by omega), or_shiftLeft_eq_add _ _ 32 (by omega),
    or_shiftLeft_eq_add _ _ 40 (by omega), or_shiftLeft_eq_add _ _ 48 (by omega),
    or_shiftLeft_eq_add _ _ 56 (by omega)]

theorem leWord32_lt (p : List Byte) (k : Nat) : leWord32 p k < 2 ^ 32 := by
  have h0 := (p.getD k 0).isLt
  have h1 := (p.getD (k + 1) 0).isLt
  have h2 := (p.getD (k + 2) 0).isLt
  have h3 := (p.getD (k + 3) 0).isLt
  unfold leWord32
  omega

theorem leWord64_lt (p : List Byte) (k : Nat) : leWord64 p k < 2 ^ 64 := by
  have h0 := (p.getD k 0).isLt
  have h1 := (p.getD (k + 1) 0).isLt
  have h2 := (p.getD (k + 2) 0).isLt
  have h3 := (p.getD (k + 3) 0).isLt
  have h4 := (p.getD (k + 4) 0).isLt
  have h5 := (p.getD (k + 5) 0).isLt
  have h6 := (p.getD (k + 6) 0).isLt
  have h7 := (p.getD (k + 7) 0).isLt
  simp only [leWord64, Finset.sum_range_succ, Finset.sum_range_zero]
  norm_num
  omega

theorem fetch32_eq (p : List Byte) (i : Int) (h0 : 0 ≤ i) (h : i + 4 ≤ (p.length : Int)) :
    fetch32 p i = some (leWord32 p i.toNat) := by
  rw [fetch32, sliceFrom_eq p i h0 (by omega)]
  simp only [Option.some_bind, Option.bind]
  rw [leUint32_drop p i.toNat (by omega)]
  rfl

theorem fetch64_eq (p : List Byte) (i : Int) (h0 : 0 ≤ i) (h : i + 8 ≤ (p.length : Int)) :
    fetch64 p i = some (leWord64 p i.toNat) := by
  rw [fetch64, sliceFrom_eq p i h0 (by omega)]
  simp only [Option.some_bind, Option.bind]
  rw [leUint64_drop p i.toNat (by omega)]
  simp only [leWord64, Finset.sum_range_succ, Finset.sum_range_zero]
  norm_num

theorem leUint32_eq_none (b : List Byte) (h : b.length < 4) : leUint32 b = none := by
  match b, h with
  | [], _ => rfl
  | [_], _ => rfl
  | [_, _], _ => rfl
  | [_, _, _], _ => rfl
  | _ :: _ :: _ :: _ :: _, h => simp at h; omega

theorem fetch32_eq_none_iff (p : List Byte) (i : Int) :
    fetch32 p i = none ↔ (i < 0 ∨ (p.length : Int) < i + 4) := by
  constructor
  · intro hn
    by_contra hc
    push_neg at hc
    rw [fetch32_eq p i hc.1 hc.2] at hn
    exact Option.some_ne_none _ hn
  · intro hc
    unfold fetch32 sliceFrom
    split_ifs with hb
    · simp only [Option.some_bind, Option.bind]
      apply leUint32_eq_none
      rw [List.length_drop]
      omega
    · rfl

theorem sliceFrom_eq_none_iff (p : List Byte) (i : Int) :
    sliceFrom p i = none ↔ (i < 0 ∨ (p.length : Int) < i) := by
  unfold sliceFrom
  split_ifs with hb
  · simp only [reduceCtorEq, false_iff]
    omega
  · simp only [true_iff]
    omega

theorem shiftRight_one_natCast (n : Nat) :
    ((n : Int) >>> (1 : Nat)) = ((n / 2 : Nat) : Int) := by
  rw [Int.shiftRight_eq_div_pow]
  simp

theorem tdiv_natCast_sub_one (n : Nat) (h : 1 ≤ n) :
    Int.tdiv ((n : Int) - 1) 20 = (((n - 1) / 20 : Nat) : Int) := by
  rw [Int.tdiv_eq_ediv (by omega) (by omega)]
  omega

/-! ## CityHash32: the short bands -/

theorem fmix_lt (h : Nat) : fmix h < 2 ^ 32 := by
  unfold fmix
  apply Nat.xor_lt_two_pow
  · exact Nat.mod_lt _ (by norm_num)
  · rw [Nat.shiftRight_eq_div_pow]
    exact lt_of_le_of_lt (Nat.div_le_self _ _) (Nat.mod_lt _ (by norm_num))

theorem hash32Len5to12_spec (s : List Byte) (h5 : 5 ≤ s.length) (h12 : s.length ≤ 12) :
    ∃ v, hash32Len5to12 s = some v ∧ v < 2 ^ 32 := by
  have e0 := fetch32_eq s 0 (by omega) (by omega)
  have e1 := fetch32_eq s ((s.length : Int) - 4) (by omega) (by omega)
  have hidx : 0 ≤ Int.land ((s.length : Int) >>> (1 : Nat)) 4 ∧
      Int.land ((s.length : Int) >>> (1 : Nat)) 4 + 4 ≤ (s.length : Int) := by
    generalize s.length = n at h5 h12
    interval_cases n <;> decide
  have e2 := fetch32_eq s _ hidx.1 hidx.2
  simp only [hash32Len5to12, e0, e1, e2, Option.some_bind, Option.bind_eq_bind,
    Option.some.injEq, exists_eq_left']
  exact fmix_lt _

theorem hash32Len13to24_spec (s : List Byte) (h13 : 13 ≤ s.length) (h24 : s.length ≤ 24) :
    ∃ v, hash32Len13to24 s = some v ∧ v < 2 ^ 32 := by
  have hs := shiftRight_one_natCast s.length
  have ea := fetch32_eq s (((s.length : Int) >>> (1 : Nat)) - 4) (by omega) (by omega)
  have eb := fetch32_eq s 4 (by omega) (by omega)
  have ec := fetch32_eq s ((s.length : Int) - 8) (by omega) (by omega)
  have ed := fetch32_eq s ((s.length : Int) >>> (1 : Nat)) (by omega) (by omega)
  have ee := fetch32_eq s 0 (by omega) (by omega)
  have ef := fetch32_eq s ((s.length : Int) - 4) (by omega) (by omega)
  simp only [hash32Len13to24, ea, eb, ec, ed, ee, ef, Option.some_bind, Option.bind_eq_bind,
    Option.some.injEq, exists_eq_left']
  exact fmix_lt _

/-! ## CityHash32: the chunk loop -/

theorem body32_spec (st : Loop32) (h : 20 ≤ st.s.length) :
    ∃ st', body32 st = some st' ∧ st'.s = st.s.drop 20 ∧ st'.iters = st.iters - 1 := by
  have e0 := fetch32_eq st.s 0 (by omega) (by omega)
  have e4 := fetch32_eq st.s 4 (by omega) (by omega)
  have e8 := fetch32_eq st.s 8 (by omega) (by omega)
  have e12 := fetch32_eq st.s 12 (by omega) (by omega)
  have e16 := fetch32_eq st.s 16 (by omega) (by omega)
  have es := sliceFrom_eq st.s 20 (by omega) (by omega)
  simp only [body32, e0, e4, e8, e12, e16, es, Option.some_bind, Option.bind_eq_bind,
    Option.some.injEq, exists_eq_left']
  exact ⟨rfl, trivial⟩

theorem iter32_spec (i : Nat) : ∀ st : Loop32, 20 * i ≤ st.s.length →
    ∃ st', iter32 i st = some st' ∧ st'.s = st.s.drop (20 * i) ∧
      st'.iters = st.iters - (i : Int) := by
  induction i with
  | zero => intro st _; exact ⟨st, rfl, by simp, by simp⟩
  | succ i ih =>
    intro st h
    obtain ⟨st1, hb, hs1, hi1⟩ := body32_spec st (by omega)
    obtain ⟨st2, hit, hs2, hi2⟩ := ih st1 (by rw [hs1, List.length_drop]; omega)
    refine ⟨st2, ?_, ?_, ?_⟩
    · simp only [iter32, hb, Option.some_bind, hit]
    · rw [hs2, hs1, List.drop_drop]
      congr 1
      omega
    · rw [hi2, hi1]
      push_cast
      omega

theorem loop32_eq_iter32 (k : Nat) : ∀ (fuel : Nat) (st : Loop32), k < fuel →
    st.iters = (k : Int) + 1 → 20 * (k + 1) ≤ st.s.length →
    loop32 fuel st = iter32 (k + 1) st := by
  induction k with
  | zero =>
    intro fuel st hf hi hl
    obtain ⟨fuel, rfl⟩ : ∃ m, fuel = m + 1 := ⟨fuel - 1, by omega⟩
    obtain ⟨st1, hb, _, hi1⟩ := body32_spec st (by omega)
    have h0 : st1.iters = 0 := by rw [hi1, hi]; omega
    simp [loop32, iter32, hb, h0]
  | succ k ih =>
    intro fuel st hf hi hl
    obtain ⟨fuel, rfl⟩ : ∃ m, fuel = m + 1 := ⟨fuel - 1, by omega⟩
    obtain ⟨st1, hb, hs1, hi1⟩ := body32_spec st (by omega)
    have h0 : st1.iters ≠ 0 := by rw [hi1, hi]; push_cast; omega
    have hrec := ih fuel st1 (by omega) (by rw [hi1, hi]; push_cast; omega)
      (by rw [hs1, List.length_drop]; omega)
    rw [iter32]
    simp only [loop32, hb, Option.some_bind, Option.bind_eq_bind, h0, if_false, hrec]

theorem loop32_spec (s : List Byte) (h g f : Nat) (hn : 24 < s.length) :
    ∃ st, loop32 s.length ⟨s, h, g, f, Int.tdiv ((s.length : Int) - 1) 20⟩ = some st := by
  obtain ⟨k, hk⟩ : ∃ k, (s.length - 1) / 20 = k + 1 := ⟨(s.length - 1) / 20 - 1, by omega⟩
  have hi : Int.tdiv ((s.length : Int) - 1) 20 = (k : Int) + 1 := by
    rw [tdiv_natCast_sub_one _ (by omega), hk]
    push_cast
    rfl
  rw [loop32_eq_iter32 k s.length _ (by omega) hi (by simp only; omega)]
  obtain ⟨st, hst, _, _⟩ := iter32_spec (k + 1) ⟨s, h, g, f, Int.tdiv ((s.length : Int) - 1) 20⟩
    (by simp only; omega)
  exact ⟨st, hst⟩

theorem wrapInt64_emod (x y : Int) :
    wrapInt64 (wrapInt64 x + y) % 2 ^ 32 = (x + y) % 2 ^ 32 := by
  unfold wrapInt64
  omega

theorem toInt8_eq (v : Byte) :
    toInt8 v = if 128 ≤ v.val then (v.val : Int) - 256 else (v.val : Int) := by
  unfold toInt8
  split_ifs <;> omega

theorem fold0to4_eq_spec (bc : Nat × Nat) (v : Byte) : fold0to4 bc v = specFold0to4 bc v := by
  simp only [fold0to4, specFold0to4, toUint32, wrapInt64_emod, toInt8_eq]

/-! ## CityHash64: the short bands -/

theorem hash128to64_lt (x : Uint128) : hash128to64 x < 2 ^ 64 := by
  unfold hash128to64
  exact Nat.mod_lt _ (by norm_num)

theorem hashLen16_lt (u v : Nat) : hashLen16 u v < 2 ^ 64 := hash128to64_lt _

theorem byteAt_eq (p : List Byte) (i : Int) (h0 : 0 ≤ i) (h : i < (p.length : Int)) :
    byteAt p i = some (p.getD i.toNat 0) := by
  have hlt : i.toNat < p.length := by omega
  simp [byteAt, h0, List.getD_eq_getElem?_getD, List.getElem?_eq_getElem hlt]

theorem hashLen0to16_spec (s : List Byte) (h16 : s.length ≤ 16) :
    ∃ v, hashLen0to16 s 0 = some v ∧ v < 2 ^ 64 := by
  unfold hashLen0to16
  simp only [sub_zero, zero_add]
  split_ifs with h8 h4 h0
  · have ea := fetch64_eq s 0 (by omega) (by omega)
    have eb := fetch64_eq s ((s.length : Int) - 8) (by omega) (by omega)
    simp only [ea, eb, Option.some_bind, Option.bind_eq_bind, Option.some.injEq,
      exists_eq_left']
    exact Nat.xor_lt_two_pow (hashLen16_lt _ _) (leWord64_lt _ _)
  · have ea := fetch32_eq s 0 (by omega) (by omega)
    have eb := fetch32_eq s ((s.length : Int) - 4) (by omega) (by omega)
    simp only [ea, eb, Option.some_bind, Option.bind_eq_bind, Option.some.injEq,
      exists_eq_left']
    exact hashLen16_lt _ _
  · have hs := shiftRight_one_natCast s.length
    have ea := byteAt_eq s 0 (by omega) (by omega)
    have eb := byteAt_eq s ((s.length : Int) >>> (1 : Nat)) (by omega) (by omega)
    have ec := byteAt_eq s ((s.length : Int) - 1) (by omega) (by omega)
    simp only [ea, eb, ec, Option.some_bind, Option.bind_eq_bind, Option.some.injEq,
      exists_eq_left']
    exact Nat.mod_lt _ (by norm_num)
  · exact ⟨k2, rfl, by decide⟩

theorem hashLen17to32_spec (s : List Byte) (h17 : 17 ≤ s.length) (h32 : s.length ≤ 32) :
    ∃ v, hashLen17to32 s = some v ∧ v < 2 ^ 64 := by
  have ea := fetch64_eq s 0 (by omega) (by omega)
  have eb := fetch64_eq s 8 (by omega) (by omega)
  have ec := fetch64_eq s ((s.length : Int) - 8) (by omega) (by omega)
  have ed := fetch64_eq s ((s.length : Int) - 16) (by omega) (by omega)
  simp only [hashLen17to32, ea, eb, ec, ed, Option.some_bind, Option.bind_eq_bind,
    Option.some.injEq, exists_eq_left']
  exact hashLen16_lt _ _

theorem hashLen33to64_spec (s : List Byte) (h33 : 33 ≤ s.length) (h64 : s.length ≤ 64) :
    ∃ v, hashLen33to64 s = some v ∧ v < 2 ^ 64 := by
  have e0 := fetch64_eq s 0 (by omega) (by omega)
  have e8 := fetch64_eq s 8 (by omega) (by omega)
  have e16 := fetch64_eq s 16 (by omega) (by omega)
  have e24 := fetch64_eq s 24 (by omega) (by omega)
  have f8 := fetch64_eq s ((s.length : Int) - 8) (by omega) (by omega)
  have f16 := fetch64_eq s ((s.length : Int) - 16) (by omega) (by omega)
  have f24 := fetch64_eq s ((s.length : Int) - 24) (by omega) (by omega)
  have f32 := fetch64_eq s ((s.length : Int) - 32) (by omega) (by omega)
  simp only [hashLen33to64, e0, e8, e16, e24, f8, f16, f24, f32, Option.some_bind,
    Option.bind_eq_bind, Option.some.injEq, exists_eq_left']
  exact Nat.mod_lt _ (by norm_num)

theorem weakHashLen32WithSeeds_3_eq (s : List Byte) (offset : Int) (a b : Nat)
    (h0 : 0 ≤ offset) (h : offset + 32 ≤ (s.length : Int)) :
    weakHashLen32WithSeeds_3 s offset a b =
      some (weakHashLen32WithSeeds (leWord64 s offset.toNat) (leWord64 s (offset + 8).toNat)
        (leWord64 s (offset + 16).toNat) (leWord64 s (offset + 24).toNat) a b) := by
  have e0 := fetch64_eq s offset (by omega) (by omega)
  have e8 := fetch64_eq s (offset + 8) (by omega) (by omega)
  have e16 := fetch64_eq s (offset + 16) (by omega) (by omega)
  have e24 := fetch64_eq s (offset + 24) (by omega) (by omega)
  simp only [weakHashLen32WithSeeds_3, e0, e8, e16, e24, Option.some_bind, Option.bind_eq_bind]

/-! ## CityHash64: the chunk loop -/

theorem body64_spec (st : Loop64) (h : 64 ≤ st.s.length) :
    ∃ st', body64 st = some st' ∧ st'.s = st.s.drop 64 ∧ st'.length = st.length - 64 := by
  have e8 := fetch64_eq st.s 8 (by omega) (by omega)
  have e16 := fetch64_eq st.s 16 (by omega) (by omega)
  have e40 := fetch64_eq st.s 40 (by omega) (by omega)
  have e48 := fetch64_eq st.s 48 (by omega) (by omega)
  have es := sliceFrom_eq st.s 64 (by omega) (by omega)
  simp only [body64, e8, e16, e40, e48, es, Option.some_bind, Option.bind_eq_bind,
    weakHashLen32WithSeeds_3_eq st.s 0 _ _ (by omega) (by omega),
    weakHashLen32WithSeeds_3_eq st.s 32 _ _ (by omega) (by omega),
    Option.some.injEq, exists_eq_left']
  exact ⟨rfl, trivial⟩

theorem iter64_spec (i : Nat) : ∀ st : Loop64, 64 * i ≤ st.s.length →
    ∃ st', iter64 i st = some st' ∧ st'.s = st.s.drop (64 * i) ∧
      st'.length = st.length - 64 * (i : Int) := by
  induction i with
  | zero => intro st _; exact ⟨st, rfl, by simp, by simp⟩
  | succ i ih =>
    intro st h
    obtain ⟨st1, hb, hs1, hi1⟩ := body64_spec st (by omega)
    obtain ⟨st2, hit, hs2, hi2⟩ := ih st1 (by rw [hs1, List.length_drop]; omega)
    refine ⟨st2, ?_, ?_, ?_⟩
    · simp only [iter64, hb, Option.some_bind, hit]
    · rw [hs2, hs1, List.drop_drop]
      congr 1
      omega
    · rw [hi2, hi1]
      push_cast
      omega

theorem loop64_eq_iter64 (k : Nat) : ∀ (fuel : Nat) (st : Loop64), k < fuel →
    st.length = 64 * ((k : Int) + 1) → 64 * (k + 1) ≤ st.s.length →
    loop64 fuel st = iter64 (k + 1) st := by
  induction k with
  | zero =>
    intro fuel st hf hi hl
    obtain ⟨fuel, rfl⟩ : ∃ m, fuel = m + 1 := ⟨fuel - 1, by omega⟩
    obtain ⟨st1, hb, _, hi1⟩ := body64_spec st (by omega)
    have h0 : st1.length = 0 := by rw [hi1, hi]; omega
    simp [loop64, iter64, hb, h0]
  | succ k ih =>
    intro fuel st hf hi hl
    obtain ⟨fuel, rfl⟩ : ∃ m, fuel = m + 1 := ⟨fuel - 1, by omega⟩
    obtain ⟨st1, hb, hs1, hi1⟩ := body64_spec st (by omega)
    have h0 : st1.length ≠ 0 := by rw [hi1, hi]; push_cast; omega
    have hrec := ih fuel st1 (by omega) (by rw [hi1, hi]; push_cast; omega)
      (by rw [hs1, List.length_drop]; omega)
    rw [iter64]
    simp only [loop64, hb, Option.some_bind, Option.bind_eq_bind, h0, if_false, hrec]

theorem ldiff_63 (m : Nat) : Nat.ldiff m 63 = m / 64 * 64 := by
  apply Nat.eq_of_testBit_eq
  intro i
  have h63 : (63 : Nat) = 2 ^ 6 - 1 := by norm_num
  have h64 : m / 64 * 64 = (m >>> 6) <<< 6 := by
    rw [Nat.shiftLeft_eq, Nat.shiftRight_eq_div_pow]
  rw [Nat.testBit_ldiff, h63, Nat.testBit_two_pow_sub_one, h64, Nat.testBit_shiftLeft,
    Nat.testBit_shiftRight]
  by_cases hi : i < 6
  · simp [hi]
  · have : 6 + (i - 6) = i := by omega
    simp [hi, this]
    omega

theorem land_not_63 (n : Nat) (h : 1 ≤ n) :
    Int.land ((n : Int) - 1) (Int.not 63) = (((n - 1) / 64 * 64 : Nat) : Int) := by
  have hc : (n : Int) - 1 = ((n - 1 : Nat) : Int) := by omega
  rw [hc, ← ldiff_63]
  rfl

theorem loop64_spec (s : List Byte) (x y z : Nat) (v w : Uint128) (hn : 64 < s.length) :
    ∃ st, loop64 s.length ⟨s, x, y, z, v, w, Int.land ((s.length : Int) - 1) (Int.not 63)⟩ =
      some st := by
  obtain ⟨k, hk⟩ : ∃ k, (s.length - 1) / 64 = k + 1 := ⟨(s.length - 1) / 64 - 1, by omega⟩
  have hi : Int.land ((s.length : Int) - 1) (Int.not 63) = 64 * ((k : Int) + 1) := by
    rw [land_not_63 _ (by omega), hk]
    push_cast
    ring
  rw [loop64_eq_iter64 k s.length _ (by omega) hi (by simp only; omega)]
  obtain ⟨st, hst, _, _⟩ := iter64_spec (k + 1)
    ⟨s, x, y, z, v, w, Int.land ((s.length : Int) - 1) (Int.not 63)⟩ (by simp only; omega)
  exact ⟨st, hst⟩

theorem CityHash64_some (s : List Byte) : ∃ v, CityHash64 s = some v ∧ v < 2 ^ 64 := by
  unfold CityHash64
  simp only
  split_ifs with h32 h16 h64
  · exact hashLen0to16_spec s (by omega)
  · exact hashLen17to32_spec s (by omega) (by omega)
  · exact hashLen33to64_spec s (by omega) (by omega)
  · have e0 := fetch64_eq s 0 (by omega) (by omega)
    have e16 := fetch64_eq s ((s.length : Int) - 16) (by omega) (by omega)
    have e24 := fetch64_eq s ((s.length : Int) - 24) (by omega) (by omega)
    have e40 := fetch64_eq s ((s.length : Int) - 40) (by omega) (by omega)
    have e48 := fetch64_eq s ((s.length : Int) - 48) (by omega) (by omega)
    have e56 := fetch64_eq s ((s.length : Int) - 56) (by omega) (by omega)
    simp only [e0, e16, e24, e40, e48, e56, Option.some_bind, Option.bind_eq_bind,
      weakHashLen32WithSeeds_3_eq s ((s.length : Int) - 64) _ _ (by omega) (by omega),
      weakHashLen32WithSeeds_3_eq s ((s.length : Int) - 32) _ _ (by omega) (by omega)]
    obtain ⟨st, hst⟩ := loop64_spec s _ _ _ _ _ (by omega)
    rw [hst]
    simp only [Option.some_bind, Option.some.injEq, exists_eq_left']
    exact hashLen16_lt _ _

theorem byteAt_eq_none_iff (p : List Byte) (i : Int) :
    byteAt p i = none ↔ (i < 0 ∨ (p.length : Int) ≤ i) := by
  unfold byteAt
  split_ifs with hb
  · rw [List.getElem?_eq_none_iff]
    omega
  · simp only [true_iff]
    omega

theorem fetch64_eq_none_iff (p : List Byte) (i : Int) :
    fetch64 p i = none ↔ (i < 0 ∨ (p.length : Int) < i + 8) := by
  constructor
  · intro hn
    by_contra hc
    push_neg at hc
    rw [fetch64_eq p i hc.1 hc.2] at hn
    exact Option.some_ne_none _ hn
  · intro hc
    unfold fetch64 sliceFrom
    split_ifs with hb
    · simp only [Option.some_bind, Option.bind]
      have hl : (p.drop i.toNat).length < 8 := by
        rw [List.length_drop]
        omega
      generalize p.drop i.toNat = b at hl
      match b, hl with
      | [], _ => rfl
      | [_], _ => rfl
      | [_, _], _ => rfl
      | [_, _, _], _ => rfl
      | [_, _, _, _], _ => rfl
      | [_, _, _, _, _], _ => rfl
      | [_, _, _, _, _, _], _ => rfl
      | [_, _, _, _, _, _, _], _ => rfl
      | _ :: _ :: _ :: _ :: _ :: _ :: _ :: _ :: _, h => simp at h; omega
    · rfl

/-! ## A pass of either loop reads its chunk only -/

theorem rotateByAtLeast1_eq_rotr64 (v n : Nat) (hv : v < 2 ^ 64) (h1 : 1 ≤ n) (h63 : n ≤ 63) :
    rotateByAtLeast1 v n = rotr64 v n := by
  have hs : (64 + 2 ^ 64 - n) % 2 ^ 64 = 64 - n := by omega
  have hp : (2 : Nat) ^ 64 = 2 ^ n * 2 ^ (64 - n) := by
    rw [← Nat.pow_add]
    congr 1
    omega
  have hy : v >>> n < 2 ^ (64 - n) := by
    rw [Nat.shiftRight_eq_div_pow, Nat.div_lt_iff_lt_mul (Nat.pow_pos (by norm_num))]
    rw [Nat.mul_comm, ← hp]
    exact hv
  have hm : (v <<< (64 - n)) % 2 ^ 64 = (v % 2 ^ n) <<< (64 - n) := by
    rw [Nat.shiftLeft_eq, Nat.shiftLeft_eq, hp, Nat.mul_mod_mul_right]
  unfold rotateByAtLeast1 rotr64
  rw [hs, hm, or_shiftLeft_eq_add _ _ _ hy, Nat.shiftRight_eq_div_pow, Nat.mul_comm]

/-! ## Rotations -/

theorem rot_eq (w v n : Nat) (hv : v < 2 ^ w) (hn : n ≤ w) :
    (v >>> n) ||| ((v <<< (w - n)) % 2 ^ w) = v / 2 ^ n + (v % 2 ^ n) * 2 ^ (w - n) := by
  have hp : (2 : Nat) ^ w = 2 ^ n * 2 ^ (w - n) := by
    rw [← Nat.pow_add]
    congr 1
    omega
  have hy : v >>> n < 2 ^ (w - n) := by
    rw [Nat.shiftRight_eq_div_pow, Nat.div_lt_iff_lt_mul (Nat.pow_pos (by norm_num))]
    rw [Nat.mul_comm, ← hp]
    exact hv
  have hm : (v <<< (w - n)) % 2 ^ w = (v % 2 ^ n) <<< (w - n) := by
    rw [Nat.shiftLeft_eq, Nat.shiftLeft_eq, hp, Nat.mul_mod_mul_right]
  rw [hm, or_shiftLeft_eq_add _ _ _ hy, Nat.shiftRight_eq_div_pow, Nat.mul_comm]

theorem rot_lt (w v n : Nat) (hv : v < 2 ^ w) :
    (v >>> n) ||| ((v <<< (w - n)) % 2 ^ w) < 2 ^ w := by
  apply Nat.or_lt_two_pow
  · rw [Nat.shiftRight_eq_div_pow]
    exact lt_of_le_of_lt (Nat.div_le_self _ _) hv
  · exact Nat.mod_lt _ (Nat.pow_pos (by norm_num))

theorem rot_testBit (w v n i : Nat) (hv : v < 2 ^ w) (hn : n < w) (hi : i < w) :
    ((v >>> n) ||| ((v <<< (w - n)) % 2 ^ w)).testBit i = v.testBit ((i + n) % w) := by
  rw [Nat.testBit_or, Nat.testBit_shiftRight, Nat.testBit_mod_two_pow, Nat.testBit_shiftLeft]
  by_cases hc : i + n < w
  · have h1 : ¬ (i ≥ w - n) := by omega
    rw [Nat.mod_eq_of_lt hc, Nat.add_comm n i]
    simp [h1]
  · have h1 : i ≥ w - n := by omega
    have h2 : v.testBit (n + i) = false := by
      apply Nat.testBit_lt_two_pow
      exact lt_of_lt_of_le hv (Nat.pow_le_pow_right (by norm_num) (by omega))
    have h3 : (i + n) % w = i - (w - n) := by
      rw [Nat.mod_eq_sub_mod (by omega), Nat.mod_eq_of_lt (by omega)]
      omega
    rw [h2, h3]
    simp [hi, h1]

theorem rotate32_unfold (v n : Nat) (h1 : 1 ≤ n) (hn : n ≤ 32) :
    rotate32 v n = (v >>> n) ||| ((v <<< (32 - n)) % 2 ^ 32) := by
  have hs : (32 + 2 ^ 32 - n) % 2 ^ 32 = 32 - n := by omega
  have h0 : n ≠ 0 := by omega
  simp only [rotate32, h0, ne_eq, not_false_eq_true, if_true, hs]

theorem rotate64_unfold (v n : Nat) (h1 : 1 ≤ n) (hn : n ≤ 64) :
    rotate64 v n = (v >>> n) ||| ((v <<< (64 - n)) % 2 ^ 64) := by
  have hs : (64 + 2 ^ 32 - n) % 2 ^ 32 = 64 - n := by omega
  have h0 : n ≠ 0 := by omega
  simp only [rotate64, h0, ne_eq, not_false_eq_true, if_true, hs]

theorem rotateByAtLeast1_unfold (v n : Nat) (h1 : 1 ≤ n) (hn : n ≤ 64) :
    rotateByAtLeast1 v n = (v >>> n) ||| ((v <<< (64 - n)) % 2 ^ 64) := by
  have hs : (64 + 2 ^ 64 - n) % 2 ^ 64 = 64 - n := by omega
  simp only [rotateByAtLeast1, hs]

theorem rotate32_eq_rotr32 (v n : Nat) (hv : v < 2 ^ 32) (hn : n < 32) :
    rotate32 v n = rotr32 v n := by
  by_cases h0 : n = 0
  · subst h0
    simp [rotate32, rotr32, Nat.mod_one]
  · rw [rotate32_unfold v n (by omega) (by omega), rot_eq 32 v n hv (by omega)]
    rfl

theorem rotate64_eq_rotr64 (v n : Nat) (hv : v < 2 ^ 64) (hn : n < 64) :
    rotate64 v n = rotr64 v n := by
  by_cases h0 : n = 0
  · subst h0
    simp [rotate64, rotr64, Nat.mod_one]
  · rw [rotate64_unfold v n (by omega) (by omega), rot_eq 64 v n hv (by omega)]
    rfl

theorem rotate32_lt (v n : Nat) (hv : v < 2 ^ 32) : rotate32 v n < 2 ^ 32 := by
  unfold rotate32
  split_ifs
  · apply Nat.or_lt_two_pow
    · rw [Nat.shiftRight_eq_div_pow]
      exact lt_of_le_of_lt (Nat.div_le_self _ _) hv
    · exact Nat.mod_lt _ (by norm_num)
  · exact hv

theorem rotate64_lt (v n : Nat) (hv : v < 2 ^ 64) : rotate64 v n < 2 ^ 64 := by
  unfold rotate64
  split_ifs
  · apply Nat.or_lt_two_pow
    · rw [Nat.shiftRight_eq_div_pow]
      exact lt_of_le_of_lt (Nat.div_le_self _ _) hv
    · exact Nat.mod_lt _ (by norm_num)
  · exact hv

theorem rotate32_testBit (v n i : Nat) (hv : v < 2 ^ 32) (hn : n < 32) (hi : i < 32) :
    (rotate32 v n).testBit i = v.testBit ((i + n) % 32) := by
  by_cases h0 : n = 0
  · subst h0
    simp [rotate32, Nat.mod_eq_of_lt hi]
  · rw [rotate32_unfold v n (by omega) (by omega), rot_testBit 32 v n i hv hn hi]

theorem rotate64_testBit (v n i : Nat) (hv : v < 2 ^ 64) (hn : n < 64) (hi : i < 64) :
    (rotate64 v n).testBit i = v.testBit ((i + n) % 64) := by
  by_cases h0 : n = 0
  · subst h0
    simp [rotate64, Nat.mod_eq_of_lt hi]
  · rw [rotate64_unfold v n (by omega) (by omega), rot_testBit 64 v n i hv hn hi]

/-! ## The byte layout of a 128-bit value -/

theorem Bytes_eq (x : Uint128) :
    x.Bytes = some [toByte x.lower, toByte (x.lower >>> 8), toByte (x.lower >>> 16),
      toByte (x.lower >>> 24), toByte (x.lower >>> 32), toByte (x.lower >>> 40),
      toByte (x.lower >>> 48), toByte (x.lower >>> 56),
      toByte x.higher, toByte (x.higher >>> 8), toByte (x.higher >>> 16),
      toByte (x.higher >>> 24), toByte (x.higher >>> 32), toByte (x.higher >>> 40),
      toByte (x.higher >>> 48), toByte (x.higher >>> 56)] := by
  rfl

theorem leWord64_toBytes (v : Nat) (hv : v < 2 ^ 64) (pre post : List Byte) :
    leWord64 (pre ++ [toByte v, toByte (v >>> 8), toByte (v >>> 16), toByte (v >>> 24),
      toByte (v >>> 32), toByte (v >>> 40), toByte (v >>> 48), toByte (v >>> 56)] ++ post)
      pre.length = v := by
  have hg : ∀ j, j < 8 → ((pre ++ [toByte v, toByte (v >>> 8), toByte (v >>> 16),
      toByte (v >>> 24), toByte (v >>> 32), toByte (v >>> 40), toByte (v >>> 48),
      toByte (v >>> 56)] ++ post).getD (pre.length + j) 0).val = (v >>> (8 * j)) % 256 := by
    intro j hj
    rw [List.append_assoc, List.getD_eq_getElem?_getD, List.getElem?_append_right (by omega)]
    have hj' : pre.length + j - pre.length = j := by omega
    rw [hj']
    interval_cases j <;> simp [toByte]
  simp only [leWord64, Finset.sum_range_succ, Finset.sum_range_zero]
  rw [hg 0 (by omega), hg 1 (by omega), hg 2 (by omega), hg 3 (by omega), hg 4 (by omega),
    hg 5 (by omega), hg 6 (by omega), hg 7 (by omega)]
  simp only [Nat.shiftRight_eq_div_pow]
  norm_num
  omega

/-! ## hashLen0to16 at a non-zero offset -/

theorem CityHash32_eq_tail_finish (s : List Byte) (h : 24 < s.length) :
    CityHash32 s = (tail32 s).bind (finish32 s) := by
  have h4 : ¬ ((s.length : Int) ≤ 4) := by omega
  have h12 : ¬ ((s.length : Int) ≤ 12) := by omega
  have h24 : ¬ ((s.length : Int) ≤ 24) := by omega
  have e0 := fetch32_eq s ((s.length : Int) - 4) (by omega) (by omega)
  have e1 := fetch32_eq s ((s.length : Int) - 8) (by omega) (by omega)
  have e2 := fetch32_eq s ((s.length : Int) - 16) (by omega) (by omega)
  have e3 := fetch32_eq s ((s.length : Int) - 12) (by omega) (by omega)
  have e4 := fetch32_eq s ((s.length : Int) - 20) (by omega) (by omega)
  simp only [CityHash32, tail32, finish32, h4, h12, h24, if_false, e0, e1, e2, e3, e4,
    Option.some_bind, Option.bind_eq_bind]

theorem tail32_eq (s : List Byte) (h : 24 < s.length) :
    tail32 s = some (tailWord (leWord32 s (s.length - 4)), tailWord (leWord32 s (s.length - 8)),
      tailWord (leWord32 s (s.length - 16)), tailWord (leWord32 s (s.length - 12)),
      tailWord (leWord32 s (s.length - 20))) := by
  have e0 := fetch32_eq s ((s.length : Int) - 4) (by omega) (by omega)
  have e1 := fetch32_eq s ((s.length : Int) - 8) (by omega) (by omega)
  have e2 := fetch32_eq s ((s.length : Int) - 16) (by omega) (by omega)
  have e3 := fetch32_eq s ((s.length : Int) - 12) (by omega) (by omega)
  have e4 := fetch32_eq s ((s.length : Int) - 20) (by omega) (by omega)
  have i0 : ((s.length : Int) - 4).toNat = s.length - 4 := by omega
  have i1 : ((s.length : Int) - 8).toNat = s.length - 8 := by omega
  have i2 : ((s.length : Int) - 16).toNat = s.length - 16 := by omega
  have i3 : ((s.length : Int) - 12).toNat = s.length - 12 := by omega
  have i4 : ((s.length : Int) - 20).toNat = s.length - 20 := by omega
  have hr : ∀ x, rotate32 ((x * c1) % 2 ^ 32) 17 = rotr32 ((x * c1) % 2 ^ 32) 17 := fun x =>
    rotate32_eq_rotr32 _ 17 (Nat.mod_lt _ (by norm_num)) (by norm_num)
  simp only [tail32, e0, e1, e2, e3, e4, i0, i1, i2, i3, i4, hr, tailWord, Option.some_bind,
    Option.bind_eq_bind]

/-! ## Invertibility of the mixing steps -/

theorem shiftRight_xor (a b k : Nat) : (a ^^^ b) >>> k = (a >>> k) ^^^ (b >>> k) := by
  apply Nat.eq_of_testBit_eq
  intro i
  simp only [Nat.testBit_shiftRight, Nat.testBit_xor]

theorem shiftRight_eq_zero_of_lt (v k : Nat) (h : v < 2 ^ k) : v >>> k = 0 := by
  rw [Nat.shiftRight_eq_div_pow]
  exact Nat.div_eq_of_lt h

theorem xor_xor_self (h a : Nat) : (h ^^^ a) ^^^ a = h := by
  rw [Nat.xor_assoc, Nat.xor_self, Nat.xor_zero]

theorem xor_three_cancel (h a b : Nat) : (h ^^^ a) ^^^ (a ^^^ b) ^^^ b = h := by
  apply Nat.eq_of_testBit_eq
  intro i
  simp only [Nat.testBit_xor]
  cases h.testBit i <;> cases a.testBit i <;> cases b.testBit i <;> rfl

theorem xor_shiftRight_lt (w v k : Nat) (hv : v < 2 ^ w) : v ^^^ (v >>> k) < 2 ^ w := by
  apply Nat.xor_lt_two_pow hv
  rw [Nat.shiftRight_eq_div_pow]
  exact lt_of_le_of_lt (Nat.div_le_self _ _) hv

theorem xorShift16_involutive (h : Nat) (hh : h < 2 ^ 32) :
    (h ^^^ (h >>> 16)) ^^^ ((h ^^^ (h >>> 16)) >>> 16) = h := by
  have hz : h >>> 16 >>> 16 = 0 := by
    rw [← Nat.shiftRight_add]
    exact shiftRight_eq_zero_of_lt h 32 hh
  rw [shiftRight_xor, hz, Nat.xor_zero, xor_xor_self]

theorem xorShift13_left_inverse (h : Nat) (hh : h < 2 ^ 32) :
    (h ^^^ (h >>> 13)) ^^^ ((h ^^^ (h >>> 13)) >>> 13) ^^^ ((h ^^^ (h >>> 13)) >>> 26) = h := by
  have h26 : h >>> 13 >>> 13 = h >>> 26 := by rw [← Nat.shiftRight_add]
  have hz : h >>> 13 >>> 26 = 0 := by
    rw [← Nat.shiftRight_add]
    exact shiftRight_eq_zero_of_lt h 39 (lt_of_lt_of_le hh (by norm_num))
  rw [shiftRight_xor, shiftRight_xor, h26, hz, Nat.xor_zero, xor_three_cancel]

theorem xorShift13_right_inverse (h : Nat) (hh : h < 2 ^ 32) :
    (h ^^^ (h >>> 13) ^^^ (h >>> 26)) ^^^ ((h ^^^ (h >>> 13) ^^^ (h >>> 26)) >>> 13) = h := by
  have h26 : h >>> 13 >>> 13 = h >>> 26 := by rw [← Nat.shiftRight_add]
  have hz : h >>> 26 >>> 13 = 0 := by
    rw [← Nat.shiftRight_add]
    exact shiftRight_eq_zero_of_lt h 39 (lt_of_lt_of_le hh (by norm_num))
  rw [shiftRight_xor, shiftRight_xor, h26, hz, Nat.xor_zero]
  apply Nat.eq_of_testBit_eq
  intro i
  simp only [Nat.testBit_xor]
  cases h.testBit i <;> cases (h >>> 13).testBit i <;> cases (h >>> 26).testBit i <;> rfl

theorem shiftMix_shiftMix (v : Nat) (hv : v < 2 ^ 64) : shiftMix (shiftMix v) = v := by
  have hz : v >>> 47 >>> 47 = 0 := by
    rw [← Nat.shiftRight_add]
    exact shiftRight_eq_zero_of_lt v 94 (lt_of_lt_of_le hv (by norm_num))
  unfold shiftMix
  rw [shiftRight_xor, hz, Nat.xor_zero, xor_xor_self]

theorem shiftMix_lt (v : Nat) (hv : v < 2 ^ 64) : shiftMix v < 2 ^ 64 :=
  xor_shiftRight_lt 64 v 47 hv

theorem shiftMix_injective (u v : Nat) (hu : u < 2 ^ 64) (hv : v < 2 ^ 64)
    (h : shiftMix u = shiftMix v) : u = v := by
  rw [← shiftMix_shiftMix u hu, ← shiftMix_shiftMix v hv, h]

theorem fmixInv_fmix (h : Nat) (hh : h < 2 ^ 32) : fmixInv (fmix h) = h := by
  have b1 : h ^^^ (h >>> 16) < 2 ^ 32 := xor_shiftRight_lt 32 h 16 hh
  have m1 : ∀ x, x < 2 ^ 32 → ((x * 0x85ebca6b) % 2 ^ 32 * 0xa5cb9243) % 2 ^ 32 = x := by
    intro x hx
    omega
  have m2 : ∀ x, x < 2 ^ 32 → ((x * 0xc2b2ae35) % 2 ^ 32 * 0x7ed1b41d) % 2 ^ 32 = x := by
    intro x hx
    omega
  have b2 : ((h ^^^ (h >>> 16)) * 0x85ebca6b) % 2 ^ 32 < 2 ^ 32 := Nat.mod_lt _ (by norm_num)
  have b3 := xor_shiftRight_lt 32 _ 13 b2
  have b4 : ((((h ^^^ (h >>> 16)) * 0x85ebca6b) % 2 ^ 32 ^^^
      (((h ^^^ (h >>> 16)) * 0x85ebca6b) % 2 ^ 32) >>> 13) * 0xc2b2ae35) % 2 ^ 32 < 2 ^ 32 :=
    Nat.mod_lt _ (by norm_num)
  simp only [fmixInv, fmix]
  rw [xorShift16_involutive _ b4, m2 _ b3, xorShift13_left_inverse _ b2, m1 _ b1,
    xorShift16_involutive _ hh]

theorem fmix_fmixInv (h : Nat) (hh : h < 2 ^ 32) : fmix (fmixInv h) = h := by
  have b1 : h ^^^ (h >>> 16) < 2 ^ 32 := xor_shiftRight_lt 32 h 16 hh
  have m1 : ∀ x, x < 2 ^ 32 → ((x * 0xa5cb9243) % 2 ^ 32 * 0x85ebca6b) % 2 ^ 32 = x := by
    intro x hx
    omega
  have m2 : ∀ x, x < 2 ^ 32 → ((x * 0x7ed1b41d) % 2 ^ 32 * 0xc2b2ae35) % 2 ^ 32 = x := by
    intro x hx
    omega
  have b2 : ((h ^^^ (h >>> 16)) * 0x7ed1b41d) % 2 ^ 32 < 2 ^ 32 := Nat.mod_lt _ (by norm_num)
  have b3 : ((h ^^^ (h >>> 16)) * 0x7ed1b41d) % 2 ^ 32 ^^^
      (((h ^^^ (h >>> 16)) * 0x7ed1b41d) % 2 ^ 32) >>> 13 ^^^
      (((h ^^^ (h >>> 16)) * 0x7ed1b41d) % 2 ^ 32) >>> 26 < 2 ^ 32 := by
    apply Nat.xor_lt_two_pow (xor_shiftRight_lt 32 _ 13 b2)
    rw [Nat.shiftRight_eq_div_pow]
    exact lt_of_le_of_lt (Nat.div_le_self _ _) b2
  have b4 : ((((h ^^^ (h >>> 16)) * 0x7ed1b41d) % 2 ^ 32 ^^^
      (((h ^^^ (h >>> 16)) * 0x7ed1b41d) % 2 ^ 32) >>> 13 ^^^
      (((h ^^^ (h >>> 16)) * 0x7ed1b41d) % 2 ^ 32) >>> 26) * 0xa5cb9243) % 2 ^ 32 < 2 ^ 32 :=
    Nat.mod_lt _ (by norm_num)
  simp only [fmixInv, fmix]
  rw [xorShift16_involutive _ b4, m1 _ b3, xorShift13_right_inverse _ b2, m2 _ b1,
    xorShift16_involutive _ hh]

theorem fmixInv_lt (h : Nat) : fmixInv h < 2 ^ 32 := by
  unfold fmixInv
  exact xor_shiftRight_lt 32 _ 16 (Nat.mod_lt _ (by norm_num))

theorem rotate32_17_injective (x y : Nat) (hx : x < 2 ^ 32) (hy : y < 2 ^ 32)
    (h : rotate32 x 17 = rotate32 y 17) : x = y := by
  rw [rotate32_eq_rotr32 x 17 hx (by norm_num), rotate32_eq_rotr32 y 17 hy (by norm_num)] at h
  simp only [rotr32] at h
  omega

theorem rotate32_19_injective (x y : Nat) (hx : x < 2 ^ 32) (hy : y < 2 ^ 32)
    (h : rotate32 x 19 = rotate32 y 19) : x = y := by
  rw [rotate32_eq_rotr32 x 19 hx (by norm_num), rotate32_eq_rotr32 y 19 hy (by norm_num)] at h
  simp only [rotr32] at h
  omega

theorem mul_c1_inverse (x : Nat) (hx : x < 2 ^ 32) :
    ((x * c1) % 2 ^ 32 * 0xdee13bb1) % 2 ^ 32 = x := by
  unfold c1
  omega

theorem mul_c2_inverse (x : Nat) (hx : x < 2 ^ 32) :
    ((x * c2) % 2 ^ 32 * 0x56ed309b) % 2 ^ 32 = x := by
  unfold c2
  omega

theorem mul5_add_inverse (x : Nat) (hx : x < 2 ^ 32) :
    ((((x * 5 + 0xe6546b64) % 2 ^ 32 + (2 ^ 32 - 0xe6546b64)) % 2 ^ 32) * 0xcccccccd) % 2 ^ 32 =
      x := by
  omega

theorem mul_c1_injective (x y : Nat) (hx : x < 2 ^ 32) (hy : y < 2 ^ 32)
    (h : (x * c1) % 2 ^ 32 = (y * c1) % 2 ^ 32) : x = y := by
  rw [← mul_c1_inverse x hx, ← mul_c1_inverse y hy, h]

theorem mul_c2_injective (x y : Nat) (hx : x < 2 ^ 32) (hy : y < 2 ^ 32)
    (h : (x * c2) % 2 ^ 32 = (y * c2) % 2 ^ 32) : x = y := by
  rw [← mul_c2_inverse x hx, ← mul_c2_inverse y hy, h]

theorem mul5_add_injective (x y : Nat) (hx : x < 2 ^ 32) (hy : y < 2 ^ 32)
    (h : (x * 5 + 0xe6546b64) % 2 ^ 32 = (y * 5 + 0xe6546b64) % 2 ^ 32) : x = y := by
  rw [← mul5_add_inverse x hx, ← mul5_add_inverse y hy, h]

/-- The word that `mur` folds into `h`: `a * c1`, rotated, times `c2`. -/
theorem mur_eq (a h : Nat) :
    mur a h = (rotate32 (h ^^^ ((rotate32 ((a * c1) % 2 ^ 32) 17 * c2) % 2 ^ 32)) 19 * 5 +
      0xe6546b64) % 2 ^ 32 := rfl

theorem mur_injective_right (a h1 h2 : Nat) (hh1 : h1 < 2 ^ 32) (hh2 : h2 < 2 ^ 32)
    (h : mur a h1 = mur a h2) : h1 = h2 := by
  rw [mur_eq, mur_eq] at h
  have hA : (rotate32 ((a * c1) % 2 ^ 32) 17 * c2) % 2 ^ 32 < 2 ^ 32 := Nat.mod_lt _ (by norm_num)
  have b1 := Nat.xor_lt_two_pow hh1 hA
  have b2 := Nat.xor_lt_two_pow hh2 hA
  have hr := mul5_add_injective _ _ (rotate32_lt _ 19 b1) (rotate32_lt _ 19 b2) h
  have hx := rotate32_19_injective _ _ b1 b2 hr
  exact Nat.xor_left_injective hx

theorem mur_injective_left (a1 a2 h : Nat) (ha1 : a1 < 2 ^ 32) (ha2 : a2 < 2 ^ 32)
    (hh : h < 2 ^ 32) (he : mur a1 h = mur a2 h) : a1 = a2 := by
  rw [mur_eq, mur_eq] at he
  have hA1 : (rotate32 ((a1 * c1) % 2 ^ 32) 17 * c2) % 2 ^ 32 < 2 ^ 32 :=
    Nat.mod_lt _ (by norm_num)
  have hA2 : (rotate32 ((a2 * c1) % 2 ^ 32) 17 * c2) % 2 ^ 32 < 2 ^ 32 :=
    Nat.mod_lt _ (by norm_num)
  have b1 := Nat.xor_lt_two_pow hh hA1
  have b2 := Nat.xor_lt_two_pow hh hA2
  have hr := mul5_add_injective _ _ (rotate32_lt _ 19 b1) (rotate32_lt _ 19 b2) he
  have hx := rotate32_19_injective _ _ b1 b2 hr
  have hA : (rotate32 ((a1 * c1) % 2 ^ 32) 17 * c2) % 2 ^ 32 =
      (rotate32 ((a2 * c1) % 2 ^ 32) 17 * c2) % 2 ^ 32 := Nat.xor_right_injective hx
  have m1 : (a1 * c1) % 2 ^ 32 < 2 ^ 32 := Nat.mod_lt _ (by norm_num)
  have m2 : (a2 * c1) % 2 ^ 32 < 2 ^ 32 := Nat.mod_lt _ (by norm_num)
  have hrot := mul_c2_injective _ _ (rotate32_lt _ 17 m1) (rotate32_lt _ 17 m2) hA
  have hm := rotate32_17_injective _ _ m1 m2 hrot
  exact mul_c1_injective a1 a2 ha1 ha2 hm

theorem mul_kMul_inverse (x : Nat) (hx : x < 2 ^ 64) :
    ((x * 0x9ddfea08eb382d69) % 2 ^ 64 * 0xdc56e6f5090b32d9) % 2 ^ 64 = x := by
  omega

theorem mul_kMul_injective (x y : Nat) (hx : x < 2 ^ 64) (hy : y < 2 ^ 64)
    (h : (x * 0x9ddfea08eb382d69) % 2 ^ 64 = (y * 0x9ddfea08eb382d69) % 2 ^ 64) : x = y := by
  rw [← mul_kMul_inverse x hx, ← mul_kMul_inverse y hy, h]

theorem hash128to64_eq (lo hi : Nat) :
    hash128to64 ⟨lo, hi⟩ =
      (shiftMix (((hi ^^^ shiftMix (((lo ^^^ hi) * 0x9ddfea08eb382d69) % 2 ^ 64)) *
        0x9ddfea08eb382d69) % 2 ^ 64) * 0x9ddfea08eb382d69) % 2 ^ 64 := rfl

theorem hash128to64_lower_injective (lo lo' hi : Nat) (hlo : lo < 2 ^ 64) (hlo' : lo' < 2 ^ 64)
    (hhi : hi < 2 ^ 64) (h : hash128to64 ⟨lo, hi⟩ = hash128to64 ⟨lo', hi⟩) : lo = lo' := by
  rw [hash128to64_eq, hash128to64_eq] at h
  have a0 : ((lo ^^^ hi) * 0x9ddfea08eb382d69) % 2 ^ 64 < 2 ^ 64 := Nat.mod_lt _ (by norm_num)
  have a0' : ((lo' ^^^ hi) * 0x9ddfea08eb382d69) % 2 ^ 64 < 2 ^ 64 := Nat.mod_lt _ (by norm_num)
  have b0 : ((hi ^^^ shiftMix (((lo ^^^ hi) * 0x9ddfea08eb382d69) % 2 ^ 64)) *
      0x9ddfea08eb382d69) % 2 ^ 64 < 2 ^ 64 := Nat.mod_lt _ (by norm_num)
  have b0' : ((hi ^^^ shiftMix (((lo' ^^^ hi) * 0x9ddfea08eb382d69) % 2 ^ 64)) *
      0x9ddfea08eb382d69) % 2 ^ 64 < 2 ^ 64 := Nat.mod_lt _ (by norm_num)
  have s1 := mul_kMul_injective _ _ (shiftMix_lt _ b0) (shiftMix_lt _ b0') h
  have s2 := shiftMix_injective _ _ b0 b0' s1
  have s3 := mul_kMul_injective _ _ (Nat.xor_lt_two_pow hhi (shiftMix_lt _ a0))
    (Nat.xor_lt_two_pow hhi (shiftMix_lt _ a0')) s2
  have s4 : shiftMix (((lo ^^^ hi) * 0x9ddfea08eb382d69) % 2 ^ 64) =
      shiftMix (((lo' ^^^ hi) * 0x9ddfea08eb382d69) % 2 ^ 64) := Nat.xor_right_injective s3
  have s5 := shiftMix_injective _ _ a0 a0' s4
  have s6 := mul_kMul_injective _ _ (Nat.xor_lt_two_pow hlo hhi) (Nat.xor_lt_two_pow hlo' hhi) s5
  exact Nat.xor_left_injective s6

theorem sub64_lt (a b : Nat) : sub64 a b < 2 ^ 64 := by
  unfold sub64 toUint64
  omega

theorem sub64_injective_left (a a' b : Nat) (ha : a < 2 ^ 64) (ha' : a' < 2 ^ 64)
    (h : sub64 a b = sub64 a' b) : a = a' := by
  unfold sub64 toUint64 at h
  omega

/-! ## A pass of the CityHash32 loop uses each of its five words -/

/-- C1: for every byte sequence `s`, of any length, `CityHash32 s` returns a
32-bit value: no load and no re-slice made on the way is out of range.  In the
embedding a load `fetch32 p i` fails exactly when `i < 0` or `len p < i + 4`, a
re-slice `p[i:]` exactly when `i < 0` or `len p < i`, and any failure makes the
whole digest `none`. -/
theorem CityHash32_total (s : List Byte) :
    (∃ v, CityHash32 s = some v ∧ v < 2 ^ 32) ∧
    (∀ (p : List Byte) (i : Int), fetch32 p i = none ↔ (i < 0 ∨ (p.length : Int) < i + 4)) ∧
    (∀ (p : List Byte) (i : Int), sliceFrom p i = none ↔ (i < 0 ∨ (p.length : Int) < i)) := by
  refine ⟨?_, fetch32_eq_none_iff, sliceFrom_eq_none_iff⟩
  unfold CityHash32
  simp only
  split_ifs with h4 h12 h24
  · exact ⟨_, rfl, fmix_lt _⟩
  · exact hash32Len5to12_spec s (by omega) (by omega)
  · exact hash32Len13to24_spec s (by omega) (by omega)
  · have e0 := fetch32_eq s ((s.length : Int) - 4) (by omega) (by omega)
    have e1 := fetch32_eq s ((s.length : Int) - 8) (by omega) (by omega)
    have e2 := fetch32_eq s ((s.length : Int) - 16) (by omega) (by omega)
    have e3 := fetch32_eq s ((s.length : Int) - 12) (by omega) (by omega)
    have e4 := fetch32_eq s ((s.length : Int) - 20) (by omega) (by omega)
    simp only [e0, e1, e2, e3, e4, Option.some_bind, Option.bind_eq_bind]
    obtain ⟨st, hst⟩ := loop32_spec s _ _ _ (by omega)
    rw [hst]
    simp only [Option.some_bind, Option.some.injEq, exists_eq_left']
    exact Nat.mod_lt _ (by norm_num)

/-- C2: for every byte sequence `s`, of any length, and all seeds,
`CityHash64`, `CityHash64WithSeed` and `CityHash64WithSeeds` return a 64-bit
value: no load, byte index or re-slice made on the way is out of range.  In
the embedding `fetch64 p i` fails exactly when `i < 0` or `len p < i + 8`,
`fetch32 p i` when `i < 0` or `len p < i + 4`, `p[i]` when `i < 0` or
`len p ≤ i`, `p[i:]` when `i < 0` or `len p < i`, and any failure makes the
whole digest `none`. -/
theorem CityHash64_total (s : List Byte) (seed seed0 seed1 : Nat) :
    (∃ v, CityHash64 s = some v ∧ v < 2 ^ 64) ∧
    (∃ v, CityHash64WithSeed s seed = some v ∧ v < 2 ^ 64) ∧
    (∃ v, CityHash64WithSeeds s seed0 seed1 = some v ∧ v < 2 ^ 64) ∧
    (∀ (p : List Byte) (i : Int), fetch64 p i = none ↔ (i < 0 ∨ (p.length : Int) < i + 8)) ∧
    (∀ (p : List Byte) (i : Int), fetch32 p i = none ↔ (i < 0 ∨ (p.length : Int) < i + 4)) ∧
    (∀ (p : List Byte) (i : Int), byteAt p i = none ↔ (i < 0 ∨ (p.length : Int) ≤ i)) ∧
    (∀ (p : List Byte) (i : Int), sliceFrom p i = none ↔ (i < 0 ∨ (p.length : Int) < i)) := by
  obtain ⟨v, hv, hlt⟩ := CityHash64_some s
  refine ⟨⟨v, hv, hlt⟩, ?_, ?_, fetch64_eq_none_iff, fetch32_eq_none_iff, byteAt_eq_none_iff,
    sliceFrom_eq_none_iff⟩
  · refine ⟨hashLen16 (sub64 v k2) seed, ?_, hashLen16_lt _ _⟩
    simp only [CityHash64WithSeed, CityHash64WithSeeds, hv, Option.some_bind,
      Option.bind_eq_bind]
  · refine ⟨hashLen16 (sub64 v seed0) seed1, ?_, hashLen16_lt _ _⟩
    simp only [CityHash64WithSeeds, hv, Option.some_bind, Option.bind_eq_bind]

/-- C3: `CityHash64` of the empty byte sequence is the constant
`k2 = 0x9ae16a3b2f90404f`. -/
theorem CityHash64_nil : CityHash64 [] = some k2 ∧ k2 = 0x9ae16a3b2f90404f :=
  ⟨rfl, rfl⟩

/-- C4: for every byte sequence `s` and every seed,
`CityHash64WithSeed s seed = CityHash64WithSeeds s k2 seed`, with
`k2 = 0x9ae16a3b2f90404f`. -/
theorem CityHash64WithSeed_eq (s : List Byte) (seed : Nat) :
    CityHash64WithSeed s seed = CityHash64WithSeeds s k2 seed ∧ k2 = 0x9ae16a3b2f90404f :=
  ⟨rfl, rfl⟩

/-- C5: for every byte sequence `s` and all seeds, `CityHash64 s` is some
64-bit `h` and `CityHash64WithSeeds s seed0 seed1` is `hash128to64` of the pair
`(lower = (h - seed0) mod 2^64, higher = seed1)`; hence two inputs with the
same `CityHash64` digest have the same seeded digest. -/
theorem CityHash64WithSeeds_eq (s : List Byte) (seed0 seed1 : Nat) :
    (∃ h, CityHash64 s = some h ∧ h < 2 ^ 64 ∧
      CityHash64WithSeeds s seed0 seed1 =
        some (hash128to64 ⟨(((h : Int) - (seed0 : Int)) % 2 ^ 64).toNat, seed1⟩)) ∧
    (∀ t : List Byte, CityHash64 s = CityHash64 t →
      CityHash64WithSeeds s seed0 seed1 = CityHash64WithSeeds t seed0 seed1) := by
  obtain ⟨v, hv, hlt⟩ := CityHash64_some s
  refine ⟨⟨v, hv, hlt, ?_⟩, ?_⟩
  · simp only [CityHash64WithSeeds, hv, Option.some_bind, Option.bind_eq_bind]
    rfl
  · intro t ht
    simp only [CityHash64WithSeeds, ht]

/-- C5 at a concrete input: the one-byte input `0x61` with seeds 5 and 7. -/
theorem CityHash64WithSeeds_eq_witness :
    CityHash64 [0x61] = CityHash64 [0x61] ∧
    CityHash64WithSeeds [0x61] 5 7 = CityHash64WithSeeds [0x61] 5 7 :=
  ⟨rfl, (CityHash64WithSeeds_eq [0x61] 5 7).2 [0x61] rfl⟩

/-- C6: every multi-byte load is the little-endian value of the bytes that
start at the offset.  For `0 ≤ i` and `i + 4 ≤ len p`,
`fetch32 p i = p[i] + 2^8 p[i+1] + 2^16 p[i+2] + 2^24 p[i+3]`; for
`i + 8 ≤ len p`, `fetch64 p i` is the sum over `j = 0..7` of `2^(8j) p[i+j]`.
(`getD` is applied to in-range positions only, so it is plain indexing.) -/
theorem fetch_little_endian (p : List Byte) (i : Int) (h0 : 0 ≤ i) :
    (i + 4 ≤ (p.length : Int) →
      fetch32 p i = some ((p.getD i.toNat 0).val + 2 ^ 8 * (p.getD (i.toNat + 1) 0).val +
        2 ^ 16 * (p.getD (i.toNat + 2) 0).val + 2 ^ 24 * (p.getD (i.toNat + 3) 0).val)) ∧
    (i + 8 ≤ (p.length : Int) →
      fetch64 p i = some (∑ j in Finset.range 8, 2 ^ (8 * j) * (p.getD (i.toNat + j) 0).val)) :=
  ⟨fun h => fetch32_eq p i h0 h, fun h => fetch64_eq p i h0 h⟩

/-- C6 at a concrete input: the loads at offset 1 of the bytes `1, 2, …, 9`. -/
theorem fetch_little_endian_witness :
    fetch32 [1, 2, 3, 4, 5, 6, 7, 8, 9] 1 = some 0x05040302 ∧
    fetch64 [1, 2, 3, 4, 5, 6, 7, 8, 9] 1 = some 0x0908070605040302 :=
  ⟨((fetch_little_endian [1, 2, 3, 4, 5, 6, 7, 8, 9] 1 (by decide)).1 (by decide)).trans
      (by decide),
    ((fetch_little_endian [1, 2, 3, 4, 5, 6, 7, 8, 9] 1 (by decide)).2 (by decide)).trans
      (by decide)⟩

/-- C7: for `len s ≤ 4`, `CityHash32 s = fmix (mur b (mur n c))` where `(b, c)`
is the left fold of the bytes from `(0, 9)` with
`b := (b*c1 + signext byte) mod 2^32`, `c := c xor b`: the detour of the code
through signed 64-bit arithmetic yields the 32-bit wrap-around value.  The
product formed by the code does exceed `2^63` (second byte of `0xff, 0xff`), and
on the one-byte input `0x80` the digest differs from the zero-extended one. -/
theorem hash32Len0to4_sign_extension (s : List Byte) (h : s.length ≤ 4) :
    CityHash32 s = some (fmix (mur (s.foldl specFold0to4 (0, 9)).1
      (mur s.length (s.foldl specFold0to4 (0, 9)).2))) ∧
    2 ^ 63 ≤ (fold0to4 (0, 9) 0xff).1 * c1 ∧
    (∃ t : List Byte, t.length ≤ 4 ∧ (∃ v ∈ t, 0x80 ≤ v.val) ∧
      CityHash32 t ≠ some (zeroExtHash32Len0to4 t)) := by
  refine ⟨?_, by decide, [0x80], by decide, ⟨0x80, by decide, by decide⟩, by decide⟩
  have hf : fold0to4 = specFold0to4 := funext fun bc => funext fun v => fold0to4_eq_spec bc v
  have hlen : toUint32 (s.length : Int) = s.length := by
    unfold toUint32
    omega
  have hle : (s.length : Int) ≤ 4 := by omega
  simp only [CityHash32, hle, if_true, hash32Len0to4, hf, hlen]

/-- C7 at a concrete input: the three bytes `0x01, 0x80, 0xff`. -/
theorem hash32Len0to4_sign_extension_witness :
    CityHash32 [0x01, 0x80, 0xff] = some (fmix (mur
      (([0x01, 0x80, 0xff] : List Byte).foldl specFold0to4 (0, 9)).1
      (mur 3 (([0x01, 0x80, 0xff] : List Byte).foldl specFold0to4 (0, 9)).2))) :=
  (hash32Len0to4_sign_extension [0x01, 0x80, 0xff] (by decide)).1

/-- C10: for `9 ≤ len s = n ≤ 16`,
`CityHash64 s = hash128to64 (lower = a, higher = rotr64 ((b + n) mod 2^64) n) xor b`
with `a` the little-endian 64-bit word at offset 0, `b` the one at offset
`n - 8`, and `rotr64` the right rotation of a 64-bit word. -/
theorem CityHash64_len9to16 (s : List Byte) (h9 : 9 ≤ s.length) (h16 : s.length ≤ 16) :
    CityHash64 s = some (hash128to64
      ⟨leWord64 s 0, rotr64 ((leWord64 s (s.length - 8) + s.length) % 2 ^ 64) s.length⟩ ^^^
        leWord64 s (s.length - 8)) := by
  have ea := fetch64_eq s 0 (by omega) (by omega)
  have eb := fetch64_eq s (0 + ((s.length : Int) - 0) - 8) (by omega) (by omega)
  have hidx : (0 + ((s.length : Int) - 0) - 8).toNat = s.length - 8 := by omega
  have hlen : toUint64 ((s.length : Int) - 0) = s.length := by
    unfold toUint64
    omega
  have h32 : (s.length : Int) ≤ 32 := by omega
  have h16' : (s.length : Int) ≤ 16 := by omega
  have h8 : (s.length : Int) - 0 > 8 := by omega
  rw [hidx] at eb
  simp only [CityHash64, h32, h16', if_true, hashLen0to16, h8, ea, eb, hlen, Option.some_bind,
    Option.bind_eq_bind, hashLen16, Int.toNat_zero]
  rw [rotateByAtLeast1_eq_rotr64 _ _ (Nat.mod_lt _ (by norm_num)) (by omega) (by omega)]

/-- C10 at a concrete input: the nine bytes `1, 2, …, 9`. -/
theorem CityHash64_len9to16_witness :
    CityHash64 [1, 2, 3, 4, 5, 6, 7, 8, 9] = some (hash128to64
      ⟨0x0807060504030201, rotr64 (0x0908070605040302 + 9) 9⟩ ^^^ 0x0908070605040302) :=
  (CityHash64_len9to16 [1, 2, 3, 4, 5, 6, 7, 8, 9] (by decide) (by decide)).trans (by decide)

/-- C11: `rotate32` and `rotate64` are right rotations.  For a 32-bit `val`
and `shift < 32`, `rotate32 val shift` is a 32-bit word whose bit `i` is bit
`(i + shift) mod 32` of `val`, which is `rotr32 val shift`; likewise for
`rotate64` with 64.  In particular `rotate32 val 0 = val` and
`rotate64 val 0 = val`. -/
theorem rotate_right (val shift : Nat) :
    (val < 2 ^ 32 → shift < 32 →
      rotate32 val shift = rotr32 val shift ∧ rotate32 val shift < 2 ^ 32 ∧
      ∀ i, i < 32 → (rotate32 val shift).testBit i = val.testBit ((i + shift) % 32)) ∧
    (val < 2 ^ 64 → shift < 64 →
      rotate64 val shift = rotr64 val shift ∧ rotate64 val shift < 2 ^ 64 ∧
      ∀ i, i < 64 → (rotate64 val shift).testBit i = val.testBit ((i + shift) % 64)) ∧
    rotate32 val 0 = val ∧ rotate64 val 0 = val :=
  ⟨fun hv hn => ⟨rotate32_eq_rotr32 val shift hv hn, rotate32_lt val shift hv,
      fun i hi => rotate32_testBit val shift i hv hn hi⟩,
    fun hv hn => ⟨rotate64_eq_rotr64 val shift hv hn, rotate64_lt val shift hv,
      fun i hi => rotate64_testBit val shift i hv hn hi⟩,
    rfl, rfl⟩

/-- C11 at a concrete input: `0x80000001` rotated right by 1 and
`0x8000000000000001` rotated right by 4. -/
theorem rotate_right_witness :
    rotate32 0x80000001 1 = 0xc0000000 ∧ rotate64 0x8000000000000001 4 = 0x1800000000000000 :=
  ⟨((rotate_right 0x80000001 1).1 (by decide) (by decide)).1.trans (by decide),
    ((rotate_right 0x8000000000000001 4).2.1 (by decide) (by decide)).1.trans (by decide)⟩

/-- C12: for every `val` and every `shift` with `1 ≤ shift ≤ 63`,
`rotateByAtLeast1 val shift = rotate64 val shift`. -/
theorem rotateByAtLeast1_eq_rotate64 (val shift : Nat) (h1 : 1 ≤ shift) (h63 : shift ≤ 63) :
    rotateByAtLeast1 val shift = rotate64 val shift := by
  rw [rotateByAtLeast1_unfold val shift h1 (by omega), rotate64_unfold val shift h1 (by omega)]

/-- C12 at a concrete input: `0x0123456789abcdef` and shift 12. -/
theorem rotateByAtLeast1_eq_rotate64_witness :
    rotateByAtLeast1 0x0123456789abcdef 12 = rotate64 0x0123456789abcdef 12 :=
  rotateByAtLeast1_eq_rotate64 0x0123456789abcdef 12 (by decide) (by decide)

/-- C13: for every 128-bit value `x` (both lanes below `2^64`), `x.Bytes()`
has length exactly 16, is the little-endian layout with the lower lane first
(byte `j` is `byte(lower >> 8j)`, byte `8 + j` is `byte(higher >> 8j)`), and
decoding recovers both lanes: `fetch64 (x.Bytes) 0 = x.Lower64` and
`fetch64 (x.Bytes) 8 = x.Higher64`. -/
theorem Bytes_roundtrip (x : Uint128) (hl : x.lower < 2 ^ 64) (hh : x.higher < 2 ^ 64) :
    ∃ b, x.Bytes = some b ∧ b.length = 16 ∧
      (∀ j, j < 8 → (b.getD j 0).val = (x.lower / 2 ^ (8 * j)) % 256 ∧
        (b.getD (8 + j) 0).val = (x.higher / 2 ^ (8 * j)) % 256) ∧
      fetch64 b 0 = some x.Lower64 ∧ fetch64 b 8 = some x.Higher64 := by
  refine ⟨_, Bytes_eq x, rfl, ?_, ?_, ?_⟩
  · intro j hj
    interval_cases j <;> exact ⟨by simp [toByte, Nat.shiftRight_eq_div_pow],
      by simp [toByte, Nat.shiftRight_eq_div_pow]⟩
  · rw [fetch64_eq _ 0 (by decide) (by simp)]
    exact congrArg some (leWord64_toBytes x.lower hl [] _)
  · rw [fetch64_eq _ 8 (by decide) (by simp)]
    exact congrArg some (leWord64_toBytes x.higher hh
      [toByte x.lower, toByte (x.lower >>> 8), toByte (x.lower >>> 16),
        toByte (x.lower >>> 24), toByte (x.lower >>> 32), toByte (x.lower >>> 40),
        toByte (x.lower >>> 48), toByte (x.lower >>> 56)] [])

/-- C13 at a concrete input: lanes `0x0807060504030201` and `0x100f0e0d0c0b0a09`. -/
theorem Bytes_roundtrip_witness :
    ∃ b, Uint128.Bytes ⟨0x0807060504030201, 0x100f0e0d0c0b0a09⟩ = some b ∧ b.length = 16 ∧
      fetch64 b 0 = some 0x0807060504030201 ∧ fetch64 b 8 = some 0x100f0e0d0c0b0a09 :=
  (Bytes_roundtrip ⟨0x0807060504030201, 0x100f0e0d0c0b0a09⟩ (by decide) (by decide)).imp
    fun _ h => ⟨h.1, h.2.1, h.2.2.2.1, h.2.2.2.2⟩

/-- C14: for all `w, x, y, z, a, b` (arithmetic mod `2^64`),
`weakHashLen32WithSeeds w x y z a b` has `lower = a + w + x + y + z` and
`higher = rotr64 (b + a + w + z) 21 + rotr64 (a + w + x + y) 44 + a + w`, and
it equals the specification's listing, which adds `x + y` in one step. -/
theorem weakHashLen32WithSeeds_eq (w x y z a b : Nat) :
    weakHashLen32WithSeeds w x y z a b =
      ⟨(a + w + x + y + z) % 2 ^ 64,
        (rotr64 ((b + a + w + z) % 2 ^ 64) 21 + rotr64 ((a + w + x + y) % 2 ^ 64) 44 + a + w) %
          2 ^ 64⟩ ∧
    weakHashLen32WithSeeds w x y z a b = specWeakHashLen32WithSeeds w x y z a b := by
  have e1 : (b + (a + w) % 2 ^ 64 + z) % 2 ^ 64 = (b + a + w + z) % 2 ^ 64 := by omega
  have e2 : (((a + w) % 2 ^ 64 + x) % 2 ^ 64 + y) % 2 ^ 64 = (a + w + x + y) % 2 ^ 64 := by
    omega
  have e3 : ((a + w) % 2 ^ 64 + (x + y) % 2 ^ 64) % 2 ^ 64 = (a + w + x + y) % 2 ^ 64 := by
    omega
  have r1 := rotate64_eq_rotr64 ((b + a + w + z) % 2 ^ 64) 21 (Nat.mod_lt _ (by norm_num))
    (by norm_num)
  have r2 := rotate64_eq_rotr64 ((a + w + x + y) % 2 ^ 64) 44 (Nat.mod_lt _ (by norm_num))
    (by norm_num)
  constructor
  · simp only [weakHashLen32WithSeeds, e1, e2, r1, r2, Uint128.mk.injEq]
    generalize rotr64 ((b + a + w + z) % 2 ^ 64) 21 = p
    generalize rotr64 ((a + w + x + y) % 2 ^ 64) 44 = q
    constructor <;> omega
  · simp only [weakHashLen32WithSeeds, specWeakHashLen32WithSeeds, e1, e2, e3]

set_option maxRecDepth 4096 in
/-- C16 as stated fails: on 25 bytes of value 1 the five tail words of
`CityHash32` are not the loads multiplied by `c1`, rotated left by 17 bits and
multiplied by `c2`, and the digest built from such words is not the digest. -/
theorem tail32_not_rotated_left :
    24 < (List.replicate 25 1 : List Byte).length ∧
    tail32 (List.replicate 25 1) ≠
      some (specTailWord (leWord32 (List.replicate 25 1) 21),
        specTailWord (leWord32 (List.replicate 25 1) 17),
        specTailWord (leWord32 (List.replicate 25 1) 9),
        specTailWord (leWord32 (List.replicate 25 1) 13),
        specTailWord (leWord32 (List.replicate 25 1) 5)) ∧
    CityHash32 (List.replicate 25 1) ≠
      finish32 (List.replicate 25 1)
        (specTailWord (leWord32 (List.replicate 25 1) 21),
          specTailWord (leWord32 (List.replicate 25 1) 17),
          specTailWord (leWord32 (List.replicate 25 1) 9),
          specTailWord (leWord32 (List.replicate 25 1) 13),
          specTailWord (leWord32 (List.replicate 25 1) 5)) := by
  decide

/-- C16, amended: for every input `s` of length `n > 24`, `CityHash32`
computes its five tail words `a0 .. a4` from the 32-bit little-endian loads at
offsets `n-4, n-8, n-16, n-12, n-20` (in that order), each load multiplied by
`c1`, rotated RIGHT by 17 bits (the same as left by 15) and multiplied by `c2`
(mod `2^32`), and the digest is the rest of the long-input path run on those
words. -/
theorem tail32_rotated_right (s : List Byte) (hn : 24 < s.length) :
    tail32 s = some (tailWord (leWord32 s (s.length - 4)), tailWord (leWord32 s (s.length - 8)),
      tailWord (leWord32 s (s.length - 16)), tailWord (leWord32 s (s.length - 12)),
      tailWord (leWord32 s (s.length - 20))) ∧
    CityHash32 s = finish32 s (tailWord (leWord32 s (s.length - 4)),
      tailWord (leWord32 s (s.length - 8)), tailWord (leWord32 s (s.length - 16)),
      tailWord (leWord32 s (s.length - 12)), tailWord (leWord32 s (s.length - 20))) ∧
    (∀ x, tailWord x = (rotr32 ((x * c1) % 2 ^ 32) 17 * c2) % 2 ^ 32) ∧
    (∀ v, rotr32 v 17 = rotl32 v 15) := by
  refine ⟨tail32_eq s hn, ?_, fun _ => rfl, ?_⟩
  · rw [CityHash32_eq_tail_finish s hn, tail32_eq s hn]
    rfl
  · intro v
    simp only [rotr32, rotl32]
    omega

set_option maxRecDepth 4096 in
/-- C16, amended, at a concrete input: 25 bytes of value 1. -/
theorem tail32_rotated_right_witness :
    tail32 (List.replicate 25 1) = some (2953302922, 2953302922, 2953302922, 2953302922,
      2953302922) :=
  (tail32_rotated_right (List.replicate 25 1) (by simp)).1.trans (by decide)

/-- C17: `shiftMix` is an involution on 64-bit words: for every `v < 2^64`,
`shiftMix v` is again a 64-bit word and `shiftMix (shiftMix v) = v`; hence it
is injective and onto on 64-bit words. -/
theorem shiftMix_involution (v : Nat) (hv : v < 2 ^ 64) :
    shiftMix v < 2 ^ 64 ∧ shiftMix (shiftMix v) = v ∧
    (∀ u, u < 2 ^ 64 → shiftMix u = shiftMix v → u = v) ∧
    (∃ u, u < 2 ^ 64 ∧ shiftMix u = v) :=
  ⟨shiftMix_lt v hv, shiftMix_shiftMix v hv,
    fun u hu h => shiftMix_injective u v hu hv h,
    ⟨shiftMix v, shiftMix_lt v hv, shiftMix_shiftMix v hv⟩⟩

/-- C17 at a concrete input: the word `0xfedcba9876543210`. -/
theorem shiftMix_involution_witness :
    shiftMix (shiftMix 0xfedcba9876543210) = 0xfedcba9876543210 :=
  (shiftMix_involution 0xfedcba9876543210 (by decide)).2.1

/-- C18: `fmix` is a bijection on 32-bit words: for 32-bit `h1`, `h2`,
`fmix h1 = fmix h2` implies `h1 = h2`; `fmix` maps 32-bit words to 32-bit
words, and `fmixInv` (the xor-shifts undone, the multipliers replaced by their
inverses mod `2^32`) is its two-sided inverse. -/
theorem fmix_bijective (h1 h2 : Nat) (hh1 : h1 < 2 ^ 32) (hh2 : h2 < 2 ^ 32) :
    (fmix h1 = fmix h2 → h1 = h2) ∧ fmix h1 < 2 ^ 32 ∧
    fmixInv (fmix h1) = h1 ∧ fmixInv h1 < 2 ^ 32 ∧ fmix (fmixInv h1) = h1 := by
  refine ⟨fun h => ?_, fmix_lt h1, fmixInv_fmix h1 hh1, fmixInv_lt h1, fmix_fmixInv h1 hh1⟩
  rw [← fmixInv_fmix h1 hh1, ← fmixInv_fmix h2 hh2, h]

/-- C18 at a concrete input: the words 1 and 2 have different images. -/
theorem fmix_bijective_witness : fmix 1 ≠ fmix 2 :=
  fun h => absurd ((fmix_bijective 1 2 (by decide) (by decide)).1 h) (by decide)

/-- C19: `mur` is injective in each argument separately on 32-bit words: for
fixed `a`, `mur a h1 = mur a h2` implies `h1 = h2`, and for fixed `h`,
`mur a1 h = mur a2 h` implies `a1 = a2`. -/
theorem mur_injective (a1 a2 h1 h2 : Nat) (ha1 : a1 < 2 ^ 32) (ha2 : a2 < 2 ^ 32)
    (hh1 : h1 < 2 ^ 32) (hh2 : h2 < 2 ^ 32) :
    (mur a1 h1 = mur a1 h2 → h1 = h2) ∧ (mur a1 h1 = mur a2 h1 → a1 = a2) :=
  ⟨fun h => mur_injective_right a1 h1 h2 hh1 hh2 h,
    fun h => mur_injective_left a1 a2 h1 ha1 ha2 hh1 h⟩

/-- C19 at a concrete input: changing either argument of `mur 1 2` changes the
result. -/
theorem mur_injective_witness : mur 1 2 ≠ mur 1 3 ∧ mur 1 2 ≠ mur 4 2 :=
  ⟨fun h => absurd ((mur_injective 1 4 2 3 (by decide) (by decide) (by decide) (by decide)).1 h)
      (by decide),
    fun h => absurd ((mur_injective 1 4 2 3 (by decide) (by decide) (by decide) (by decide)).2 h)
      (by decide)⟩

/-- C20: `hash128to64` is injective in its lower lane for a fixed higher lane
(64-bit lanes), so for all inputs `s`, `t` and 64-bit `seed1`,
`CityHash64WithSeeds s seed0 seed1 = CityHash64WithSeeds t seed0' seed1` if and
only if `CityHash64 s - seed0 = CityHash64 t - seed0'` mod `2^64`; in
particular different unseeded digests give different seeded digests under the
same seeds. -/
theorem CityHash64WithSeeds_injective (s t : List Byte) (seed0 seed0' seed1 : Nat)
    (h1 : seed1 < 2 ^ 64) :
    (∀ lo lo', lo < 2 ^ 64 → lo' < 2 ^ 64 →
      hash128to64 ⟨lo, seed1⟩ = hash128to64 ⟨lo', seed1⟩ → lo = lo') ∧
    (∃ hs ht, CityHash64 s = some hs ∧ CityHash64 t = some ht ∧
      (CityHash64WithSeeds s seed0 seed1 = CityHash64WithSeeds t seed0' seed1 ↔
        ((hs : Int) - (seed0 : Int)) % 2 ^ 64 = ((ht : Int) - (seed0' : Int)) % 2 ^ 64)) ∧
    (CityHash64 s ≠ CityHash64 t →
      CityHash64WithSeeds s seed0 seed1 ≠ CityHash64WithSeeds t seed0 seed1) := by
  obtain ⟨hs, es, ls⟩ := CityHash64_some s
  obtain ⟨ht, et, lt⟩ := CityHash64_some t
  have key : ∀ a b : Nat, CityHash64WithSeeds s a seed1 = CityHash64WithSeeds t b seed1 ↔
      sub64 hs a = sub64 ht b := by
    intro a b
    simp only [CityHash64WithSeeds, es, et, Option.some_bind, Option.bind_eq_bind,
      Option.some.injEq, hashLen16]
    exact ⟨fun h => hash128to64_lower_injective _ _ seed1 (sub64_lt _ _) (sub64_lt _ _) h1 h,
      fun h => by rw [h]⟩
  refine ⟨fun lo lo' hlo hlo' h => hash128to64_lower_injective lo lo' seed1 hlo hlo' h1 h,
    ⟨hs, ht, es, et, ?_⟩, ?_⟩
  · rw [key seed0 seed0']
    unfold sub64 toUint64
    omega
  · intro hne heq
    apply hne
    rw [es, et, sub64_injective_left hs ht seed0 ls lt ((key seed0 seed0).1 heq)]

/-- C20 at a concrete input: the inputs `0x61` and `0x62` under seeds 5 and 7. -/
theorem CityHash64WithSeeds_injective_witness :
    CityHash64WithSeeds [0x61] 5 7 ≠ CityHash64WithSeeds [0x62] 5 7 :=
  (CityHash64WithSeeds_injective [0x61] [0x62] 5 5 7 (by decide)).2.2 (by decide)

end CityHash
